import Mathlib

/-!
Shallow embedding of the xq-test-infra specification-to-orchestration compiler
(packages/xq-test-infra/src/services: serviceLoader, composeGenerator, gateway,
composeInvoker), together with theorems checking the natural-language
specification against it.

JavaScript objects are modelled as association lists preserving insertion
order; absent fields are `none`; JS `Set` insertion is modelled by
append-if-not-member; numbers that can be `NaN` are modelled as `Option Int`.
-/

namespace XQ

/-! ## JS-style string and number primitives -/

/-- Digits of a decimal numeral folded to a natural number
(the semantics of `parseInt` applied to a pure digit string). -/
def digitsToNat (ds : List Char) : Nat :=
  ds.foldl (fun n c => 10 * n + (c.toNat - 48)) 0

/-- JS `parseInt` (decimal) over a character list: skip leading whitespace,
optional sign, then the maximal run of leading digits; `none` models `NaN`. -/
def jsParseIntL (l : List Char) : Option Int :=
  let cs := l.dropWhile Char.isWhitespace
  let core : List Char → Option Int := fun l' =>
    let ds := l'.takeWhile Char.isDigit
    if ds.isEmpty then none else some (Int.ofNat (digitsToNat ds))
  match cs with
  | '-' :: rest => (core rest).map (fun n => -n)
  | '+' :: rest => core rest
  | _ => core cs

/-- JS `parseInt(s)` (decimal). -/
def jsParseInt (s : String) : Option Int :=
  jsParseIntL s.toList

/-- JS `split(sep)` for a single-character separator, over characters:
one chunk per occurrence, keeping empty chunks. -/
def splitOnChar (sep : Char) : List Char → List (List Char)
  | [] => [[]]
  | c :: rest =>
    let r := splitOnChar sep rest
    if c = sep then [] :: r
    else
      match r with
      | chunk :: rs => (c :: chunk) :: rs
      | [] => [[c]]

/-- Boolean test that `needle` is a leading segment of `hay`. -/
def prefixB : List Char → List Char → Bool
  | [], _ => true
  | _ :: _, [] => false
  | a :: as, b :: bs => a = b && prefixB as bs

/-- Boolean test that `needle` occurs contiguously inside `hay`. -/
def infixB (needle hay : List Char) : Bool :=
  match hay with
  | [] => needle.isEmpty
  | _ :: t => prefixB needle hay || infixB needle t

/-- Chunks of `cs` delimited by maximal runs of characters satisfying `p`,
as produced by JS `split(/p+/)`: a leading or trailing run yields an empty
chunk at the corresponding end.  A separator opens a new chunk only when it
ends its run (its successor is absent or not a separator). -/
def splitRuns (p : Char → Bool) : List Char → List (List Char)
  | [] => [[]]
  | c :: rest =>
    let r := splitRuns p rest
    if p c then
      match rest with
      | c2 :: _ => if p c2 then r else [] :: r
      | [] => [] :: r
    else
      match r with
      | chunk :: rs => (c :: chunk) :: rs
      | [] => [[c]]

/-- JS property lookup on an object modelled as an insertion-ordered
association list (first binding wins; object keys are unique anyway). -/
def lookupA {β : Type} (k : String) : List (String × β) → Option β
  | [] => none
  | (a, b) :: rest => if k = a then some b else lookupA k rest

/-- JS `parseInt(port.split(':')[0])`: the host-side segment of a
`host:container` port mapping string (the characters before the first `:`),
`none` when not numeric. -/
def parseHostPort (port : String) : Option Int :=
  jsParseIntL (port.toList.takeWhile (fun c => c ≠ ':'))

/-! ## Data model (normalized specification, per-service descriptor) -/

/-- One routing rule of a service (`routes` entries in a descriptor).
`methods = none` models an absent field, `some []` an explicitly empty
sequence; likewise for `paths`. -/
structure RouteRule where
  methods : Option (List String) := none
  paths : Option (List String) := none
deriving DecidableEq, Repr

/-- One service descriptor of the merged specification.  Absent YAML fields
are `none`; the `healthcheck` payload is passed through verbatim and only its
presence matters, so it is modelled as an opaque string payload. -/
structure Service where
  image : String := ""
  tag : Option String := none
  ports : Option (List String) := none
  port : Option Nat := none
  autoPort : Option Bool := none
  environment : Option (List (String × String)) := none
  volumes : Option (List String) := none
  command : Option (List String) := none
  healthcheck : Option String := none
  depends_on : Option (List String) := none
  dependencyGroups : Option (List String) := none
  routes : Option (List RouteRule) := none
deriving DecidableEq, Repr

/-- The `portRange` block of the global config. -/
structure PortRange where
  start : Option Int := none
deriving DecidableEq, Repr

/-- The normalized merged specification: insertion-ordered `services`
mapping, optional `portRange` and centralized `dependencies`. -/
structure Spec where
  services : List (String × Service) := []
  portRange : Option PortRange := none
  dependencies : Option (List (String × List String)) := none
deriving DecidableEq, Repr

/-- The `depends_on` field of a compiled service entry: either the short
form (a list of names, as emitted for regular services) or the long form
(per-dependency wait conditions, as emitted for the injected gateway). -/
inductive DependsOnField where
  | short (names : List String)
  | long (conds : List (String × String))
deriving DecidableEq, Repr

/-- One compiled service entry of the orchestration document. -/
structure ComposeService where
  image : String := ""
  networks : List String := ["xq-network"]
  ports : Option (List String) := none
  environment : Option (List (String × String)) := none
  volumes : Option (List String) := none
  command : Option (List String) := none
  healthcheck : Option String := none
  depends_on : Option DependsOnField := none
deriving DecidableEq, Repr

/-- The compiled orchestration document (fixed `version` and network). -/
structure ComposeDoc where
  version : String := "3.8"
  services : List (String × ComposeService) := []
deriving DecidableEq, Repr

/-! ## composeGenerator: port assignment -/

/-- One step of JS `Set.add`: append when not already a member. -/
def addUsed (used : List Int) (p : Int) : List Int :=
  if p ∈ used then used else used ++ [p]

/-- The scan `while (usedPorts.has(hostPort)) hostPort++`, with explicit
fuel.  Each pass of the loop consumes a distinct member of `used` at or
above the scan point, so `used.length` passes always suffice; `findFree`
supplies that fuel. -/
def findFreeAux (used : List Int) : Nat → Int → Int
  | 0, p => p
  | fuel + 1, p => if p ∈ used then findFreeAux used fuel (p + 1) else p

/-- First port at or above `p` that is not in `used` (the upward scan shared
by auto-assignment, the per-service cursor advance, and the gateway port). -/
def findFree (used : List Int) (p : Int) : Int :=
  findFreeAux used used.length p

/-- `convertServiceToCompose`: record the host side of each explicit port
mapping as used (`parseInt(port.split(':')[0])`, skipping `NaN`). -/
def recordManualPorts (used : List Int) (ports : List String) : List Int :=
  ports.foldl (fun u port =>
    match parseHostPort port with
    | some h => addUsed u h
    | none => u) used

/-- JS truthiness of the numeric `service.port` field (`0` is falsy). -/
def portTruthy : Option Nat → Bool
  | none => false
  | some p => p != 0

/-- `convertServiceToCompose`: the combined dependency list, explicit
`depends_on` first, then each group of `dependencyGroups` expanded through
the centralized `dependencies` mapping. -/
def resolveDependencies (service : Service)
    (centralizedDeps : List (String × List String)) : List String :=
  (service.depends_on.getD []) ++
    (service.dependencyGroups.getD []).foldl
      (fun acc group => acc ++ ((lookupA group centralizedDeps).getD [])) []

/-- `[...new Set(dependencies)]`: deduplicate keeping first occurrences. -/
def dedupFirst (seen : List String) : List String → List String
  | [] => []
  | a :: l =>
    if a ∈ seen then dedupFirst seen l
    else a :: dedupFirst (a :: seen) l

/-- The ports branch of `convertServiceToCompose`: explicit `ports` are
used verbatim; otherwise a truthy `port` with auto-assignment not disabled
receives the first free host port at or above the cursor. -/
def convertServicePorts (service : Service)
    (usedPorts : List Int) (currentPort : Int) : Option (List String) :=
  match service.ports with
  | some ps => some ps
  | none =>
    if portTruthy service.port && service.autoPort != some false then
      some [toString (findFree usedPorts currentPort) ++ ":" ++
        toString (service.port.getD 0)]
    else none

/-- The used-port set after `convertServiceToCompose`: explicit mappings
record their parsed host sides, an auto-assigned port records itself. -/
def convertServiceUsed (service : Service)
    (usedPorts : List Int) (currentPort : Int) : List Int :=
  match service.ports with
  | some ps => recordManualPorts usedPorts ps
  | none =>
    if portTruthy service.port && service.autoPort != some false then
      addUsed usedPorts (findFree usedPorts currentPort)
    else usedPorts

/-- `convertServiceToCompose(service, centralizedDeps, usedPorts,
currentPort)`: one compiled service entry together with the updated
used-port set (the JS code mutates `usedPorts` in place). -/
def convertServiceToCompose (service : Service)
    (centralizedDeps : List (String × List String))
    (usedPorts : List Int) (currentPort : Int) :
    ComposeService × List Int :=
  let dependencies := resolveDependencies service centralizedDeps
  ({ image := service.image ++ ":" ++ (service.tag.getD "latest")
     networks := ["xq-network"]
     ports := convertServicePorts service usedPorts currentPort
     environment := service.environment
     volumes := service.volumes
     command := service.command
     healthcheck := service.healthcheck
     depends_on :=
       if dependencies.length > 0 then
         some (.short (dedupFirst [] dependencies))
       else none },
   convertServiceUsed service usedPorts currentPort)

/-- The service loop of `generateComposeObject`: compile each service in
specification order, threading the used-port set and the auto-assignment
cursor (`nextPort`); after each service whose `autoPort` is not `false` the
cursor advances by one and then skips past used ports. -/
def compileServices (centralizedDeps : List (String × List String)) :
    List (String × Service) → List Int → Int → List (String × ComposeService)
  | [], _, _ => []
  | (name, service) :: rest, usedPorts, nextPort =>
    let (entry, used') :=
      convertServiceToCompose service centralizedDeps usedPorts nextPort
    let next' :=
      if service.autoPort != some false then findFree used' (nextPort + 1)
      else nextPort
    (name, entry) :: compileServices centralizedDeps rest used' next'

/-- `spec.portRange?.start || 3000` (JS `||`: an absent field and an explicit
`0` both fall back to the default). -/
def startPort (spec : Spec) : Int :=
  match spec.portRange with
  | some pr =>
    match pr.start with
    | some n => if n = 0 then 3000 else n
    | none => 3000
  | none => 3000

/-! ## composeGenerator: gateway injection -/

/-- Path of the generated nginx config (`path.join(process.cwd(),
'nginx-gateway.conf')`); the working directory is modelled as empty. -/
def nginxConfigPath : String := "nginx-gateway.conf"

/-- `addGateway`: recompute the used host ports from the compiled services.
The JS code adds `parseInt` results unconditionally here, so a non-numeric
host segment contributes `NaN`; membership tests of an integer against `NaN`
are always false, so skipping them is equivalent. -/
def gatewayUsedPorts (composeServices : List (String × ComposeService)) :
    List Int :=
  composeServices.foldl (fun u entry =>
    match entry.2.ports with
    | some ps => ps.foldl (fun u' port =>
        match parseHostPort port with
        | some h => addUsed u' h
        | none => u') u
    | none => u) []

/-- `addGateway`: the gateway waits for every compiled service, with
condition `service_healthy` when that compiled entry carries a healthcheck
and `service_started` otherwise. -/
def gatewayDependsOn (composeServices : List (String × ComposeService)) :
    List (String × String) :=
  composeServices.map (fun entry =>
    (entry.1,
      if entry.2.healthcheck.isSome then "service_healthy"
      else "service_started"))

/-- `addGateway(compose, originalServices)` restricted to its effect on the
services mapping: append the `xq-gateway` entry.  (The nginx config file it
also writes is modelled separately by the gateway functions below.) -/
def addGateway (composeServices : List (String × ComposeService)) :
    List (String × ComposeService) :=
  let gatewayPort := findFree (gatewayUsedPorts composeServices) 8080
  composeServices ++
    [("xq-gateway",
      { image := "nginx:alpine"
        ports := some [toString gatewayPort ++ ":80"]
        volumes := some [nginxConfigPath ++ ":/etc/nginx/nginx.conf:ro"]
        networks := ["xq-network"]
        depends_on := some (.long (gatewayDependsOn composeServices)) })]

/-- `generateComposeObject(spec, enableGateway)` (the pure compilation; the
nginx-config side effect of `addGateway` is modelled by the gateway
functions below). -/
def generateComposeObject (spec : Spec) (enableGateway : Bool) : ComposeDoc :=
  let centralizedDeps := spec.dependencies.getD []
  let svcs := compileServices centralizedDeps spec.services [] (startPort spec)
  { services :=
      if enableGateway && !svcs.isEmpty then addGateway svcs else svcs }

/-! ## composeGenerator: overrides -/

/-- A partial service descriptor from the overrides file: a field is `some`
exactly when the override lists it. -/
structure ServiceOverride where
  image : Option String := none
  tag : Option String := none
  ports : Option (List String) := none
  port : Option Nat := none
  autoPort : Option Bool := none
  environment : Option (List (String × String)) := none
  volumes : Option (List String) := none
  command : Option (List String) := none
  healthcheck : Option String := none
  depends_on : Option (List String) := none
  dependencyGroups : Option (List String) := none
  routes : Option (List RouteRule) := none
deriving DecidableEq, Repr

/-- `Object.assign(service, override)`: every field the override lists
replaces the corresponding field wholesale; unlisted fields are kept. -/
def assignOverride (service : Service) (o : ServiceOverride) : Service where
  image := o.image.getD service.image
  tag := match o.tag with | some t => some t | none => service.tag
  ports := match o.ports with | some p => some p | none => service.ports
  port := match o.port with | some p => some p | none => service.port
  autoPort := match o.autoPort with | some b => some b | none => service.autoPort
  environment :=
    match o.environment with | some e => some e | none => service.environment
  volumes := match o.volumes with | some v => some v | none => service.volumes
  command := match o.command with | some c => some c | none => service.command
  healthcheck :=
    match o.healthcheck with | some h => some h | none => service.healthcheck
  depends_on :=
    match o.depends_on with | some d => some d | none => service.depends_on
  dependencyGroups :=
    match o.dependencyGroups with
    | some d => some d | none => service.dependencyGroups
  routes := match o.routes with | some r => some r | none => service.routes

/-- `applyOverrides(spec, overrides)`: each override entry is applied to the
matching service when it exists and is silently ignored otherwise. -/
def applyOverrides (spec : Spec)
    (overrides : List (String × ServiceOverride)) : Spec :=
  overrides.foldl (fun sp entry =>
    if (lookupA entry.1 sp.services).isSome then
      { sp with
        services := sp.services.map (fun p =>
          if p.1 = entry.1 then (p.1, assignOverride p.2 entry.2) else p) }
    else sp) spec

/-! ## serviceLoader: dependency validation

`ServiceLoader.validateDependencies` runs a depth-first traversal of the
explicit `depends_on` edges with a shared visited set and a recursion stack.
The JS recursion terminates because the visited set grows; here the
recursion depth is bounded by an explicit fuel parameter, and
`validateDependencies` passes fuel that is proved sufficient (see
`visitNode_ne_outOfFuel`), so the `outOfFuel` outcome is a modelling
artifact that never occurs. -/

/-- Validation failures of the loader. -/
inductive VErr where
  | dangling (source target : String)
  | circular (name : String)
  | outOfFuel
deriving DecidableEq, Repr

/-- Decidable equality of validation results. -/
instance {ε α : Type} [DecidableEq ε] [DecidableEq α] :
    DecidableEq (Except ε α) := fun a b =>
  match a, b with
  | .ok x, .ok y =>
    if h : x = y then .isTrue (by rw [h]) else .isFalse (by simp [h])
  | .error x, .error y =>
    if h : x = y then .isTrue (by rw [h]) else .isFalse (by simp [h])
  | .ok _, .error _ => .isFalse (by simp)
  | .error _, .ok _ => .isFalse (by simp)

/-- The names of the services mapping (JS `Object.keys`). -/
def keysOf (g : List (String × Service)) : List String :=
  g.map Prod.fst

/-- The explicit `depends_on` list of a service, empty when the service is
absent or declares none (JS `service && service.depends_on`). -/
def depsOf (g : List (String × Service)) (n : String) : List String :=
  match lookupA n g with
  | some s => s.depends_on.getD []
  | none => []

/-- The explicit dependency edge relation of a specification. -/
def Edge (g : List (String × Service)) (a b : String) : Prop :=
  b ∈ depsOf g a

/-- The loop over `service.depends_on` inside `hasCycle`: a dependency
absent from the services mapping raises the dangling error naming the
current service and the target; a recursive visit signalling a cycle raises
the circular error naming the current service; otherwise the grown visited
set is threaded into the remaining dependencies. -/
def goDeps (visitN : List String → List String → String →
      Except VErr (Bool × List String))
    (g : List (String × Service)) (visited stack : List String)
    (name : String) : List String → Except VErr (List String)
  | [] => .ok visited
  | d :: ds =>
    if (lookupA d g).isNone then .error (.dangling name d)
    else
      match visitN visited stack d with
      | .error e => .error e
      | .ok (true, _) => .error (.circular name)
      | .ok (false, v') => goDeps visitN g v' stack name ds

/-- `hasCycle(serviceName)`: a node already on the recursion stack signals
a cycle to its caller; an already-visited node is skipped; otherwise the
node is pushed on the visited set and the stack and its dependencies are
traversed.  The stack is passed by value, so the JS `recursionStack.delete`
on exit is implicit. -/
def visitNode (g : List (String × Service)) :
    Nat → List String → List String → String → Except VErr (Bool × List String)
  | 0, _, _, _ => .error .outOfFuel
  | fuel + 1, visited, stack, name =>
    if name ∈ stack then .ok (true, visited)
    else if name ∈ visited then .ok (false, visited)
    else
      match goDeps (visitNode g fuel) g (name :: visited) (name :: stack)
          name (depsOf g name) with
      | .error e => .error e
      | .ok v' => .ok (false, v')

/-- The top-level loop of `validateDependencies` over `Object.keys`,
skipping already-visited services and discarding the cycle flag (at the top
level the stack is empty, so the flag is always `false`). -/
def validateLoop (g : List (String × Service)) :
    List String → List String → Except VErr Unit
  | [], _ => .ok ()
  | name :: rest, visited =>
    if name ∈ visited then validateLoop g rest visited
    else
      match visitNode g (g.length + 1) visited [] name with
      | .error e => .error e
      | .ok (_, v') => validateLoop g rest v'

/-- `ServiceLoader.validateDependencies(spec)`. -/
def validateDependencies (spec : Spec) : Except VErr Unit :=
  validateLoop spec.services (keysOf spec.services) []

/-! ## gateway: route compilation -/

/-- The view of a service that `generateNginxConfig` receives: the compiled
entry decorated with the original routes
(`{...composeService, routes: originalServices[name]?.routes}`). -/
structure GwService where
  ports : Option (List String) := none
  routes : Option (List RouteRule) := none
deriving DecidableEq, Repr

/-- `extractContainerPort(ports)`: container-side segment of the first port
mapping, tolerating `host:container`, bare `container` and a `/proto`
suffix; `80` when missing or unparsable. -/
def extractContainerPort (ports : Option (List String)) : Int :=
  match ports with
  | none => 80
  | some [] => 80
  | some (first :: _) =>
    let parts := splitOnChar ':' first.toList
    let candidate :=
      if parts.length > 1 then parts.getLastD [] else parts.headD []
    let portPart := candidate.takeWhile (fun c => c ≠ '/')
    (jsParseIntL portPart).getD 80

/-- The default method set of `parseRoutes`
(`route.methods || ['GET','POST','PUT','DELETE','PATCH']`). -/
def standardMethods : List String := ["GET", "POST", "PUT", "DELETE", "PATCH"]

/-- `route.methods || standardMethods`: JS `||` falls back only on a falsy
left operand, so an absent field defaults and an explicitly empty array is
kept as is. -/
def defaultedMethods : Option (List String) → List String
  | none => standardMethods
  | some ms => ms

/-- One entry of the compiled route list built by `parseRoutes`. -/
structure RouteEntry where
  serviceName : String
  port : Int
  methods : List String
  paths : List String
deriving DecidableEq, Repr

/-- `parseRoutes(servicesMap)`: for every non-gateway service with a routes
array, emit one entry per route rule that has a paths array. -/
def parseRoutes (servicesMap : List (String × GwService)) : List RouteEntry :=
  servicesMap.foldl (fun acc entry =>
    if entry.1 = "xq-gateway" then acc
    else
      match entry.2.routes with
      | none => acc
      | some rs =>
        rs.foldl (fun acc2 route =>
          match route.paths with
          | none => acc2
          | some ps =>
            acc2 ++ [{ serviceName := entry.1
                       port := extractContainerPort entry.2.ports
                       methods := defaultedMethods route.methods
                       paths := ps }]) acc) []

/-- JS `Map` insertion appending a value to the list at `key`, creating the
key at the end on first insertion. -/
def upsert {β : Type} (key : String) (v : β) :
    List (String × List β) → List (String × List β)
  | [] => [(key, [v])]
  | (k, vs) :: rest =>
    if k = key then (k, vs ++ [v]) :: rest else (k, vs) :: upsert key v rest

/-- JS `Set.add` over strings: append when not already a member. -/
def setAdd (vs : List String) (v : String) : List String :=
  if v ∈ vs then vs else vs ++ [v]

/-- JS `Map`-of-`Set` insertion: like `upsert` but deduplicating values. -/
def upsertSet (key : String) (v : String) :
    List (String × List String) → List (String × List String)
  | [] => [(key, [v])]
  | (k, vs) :: rest =>
    if k = key then (k, setAdd vs v) :: rest
    else (k, vs) :: upsertSet key v rest

/-- `generatePathBasedLocations`: group the route entries by path (one
group per distinct path string, in first-seen order, each entry appearing
once per path it declares). -/
def pathGroups (routes : List RouteEntry) :
    List (String × List RouteEntry) :=
  routes.foldl (fun groups route =>
    route.paths.foldl (fun gs path => upsert path route gs) groups) []

/-- `generatePathBasedLocations`: within one path group, group by HTTP
method, collecting the declaring services as an insertion-ordered set. -/
def methodGroups (routeConfigs : List RouteEntry) :
    List (String × List String) :=
  routeConfigs.foldl (fun mg config =>
    config.methods.foldl (fun mg' m => upsertSet m config.serviceName mg') mg)
    []

/-- The structure of one generated nginx location block: a single
unconditional `proxy_pass`, or one `if ($request_method = m)` block per
method with the upstream each passes to. -/
inductive LocBlock where
  | single (serviceName : String)
  | conditional (conds : List (String × String))
deriving DecidableEq, Repr

/-- `generatePathBasedLocations(routes)`, rendered structurally: one block
per distinct path; a single unconditional pass-through when exactly one
method group exists and exactly one rule contributed, else one conditional
block per method passing to the first service of that method group. -/
def generatePathBasedLocations (routes : List RouteEntry) :
    List (String × LocBlock) :=
  (pathGroups routes).map (fun group =>
    let mg := methodGroups group.2
    if mg.length = 1 && group.2.length = 1 then
      (group.1,
        .single (match group.2 with
                 | c :: _ => c.serviceName
                 | [] => ""))
    else
      (group.1,
        .conditional (mg.map (fun mgrp => (mgrp.1, mgrp.2.headD "")))))

/-- `convertToNginxPath(path)`: wildcard paths get an optional `/`-prefixed
remainder, exact paths an optional trailing slash; `/` is escaped. -/
def convertToNginxPath (path : String) : String :=
  if path.endsWith "/*" then
    let basePath := (path.toList.take (path.length - 2)).asString
    "~ ^" ++ basePath.replace "/" "\\/" ++ "(\\/.*)?$"
  else
    "~ ^" ++ path.replace "/" "\\/" ++ "(\\/|$)"

/-! ## composeInvoker: waiting for test containers

`ComposeInvoker.waitForTestContainers` polls `docker compose ps -a` at a
fixed interval until a timeout.  Real time is modelled by the list of polls
the loop gets to observe: each list element is one poll (one loop
iteration), `none` standing for a failed `ps` invocation, and exhausting
the list models the timeout elapsing. -/

/-- The parsed view of one tracked service on one poll.  The JS code sets
`exitCode` only on exited entries and reads it only when every entry has
exited, so giving non-exited entries code `0` is equivalent. -/
structure ContainerStatus where
  service : String
  status : String
  exitCode : Int
  exited : Bool
deriving DecidableEq, Repr

/-- The regex `/Exited\s*\((\d+)\)/` applied at the start of `cs`:
`Exited`, optional whitespace, then a parenthesized digit run. -/
def exitedMatchAt (cs : List Char) : Option Nat :=
  if prefixB "Exited".toList cs then
    match (cs.drop 6).dropWhile Char.isWhitespace with
    | '(' :: r2 =>
      let ds := r2.takeWhile Char.isDigit
      if ds.isEmpty then none
      else
        match r2.drop ds.length with
        | ')' :: _ => some (digitsToNat ds)
        | _ => none
    | _ => none
  else none

/-- First match of `/Exited\s*\((\d+)\)/` in `cs` (leftmost position whose
full pattern completes, as a regex search). -/
def exitedCodeSearch : List Char → Option Nat
  | [] => none
  | c :: cs =>
    match exitedMatchAt (c :: cs) with
    | some n => some n
    | none => exitedCodeSearch cs

/-- `status.match(/Exited\s*\((\d+)\)/)` with the captured code. -/
def exitedCodeMatch (status : String) : Option Nat :=
  exitedCodeSearch status.toList

/-- Skip table header lines (`NAME`, `SERVICE`, `---`). -/
def isHeaderLine (line : List Char) : Bool :=
  infixB "NAME".toList line || infixB "SERVICE".toList line ||
    prefixB "---".toList line

/-- Parse one non-header line for one tracked service: the status column is
everything after the first whitespace-separated part containing the service
name; a line not containing the name contributes nothing.  A status
containing `Exited`/`exited` is terminal, with exit code parsed by the
`Exited (n)` pattern and `0` when that pattern is absent. -/
def statusOfLine (line : List Char) (serviceName : String) :
    Option ContainerStatus :=
  if !infixB serviceName.toList line then none
  else
    let parts := splitRuns Char.isWhitespace line
    let status :=
      match parts.findIdx? (fun part => infixB serviceName.toList part) with
      | some i =>
        if i < parts.length - 1 then
          List.intercalate [' '] (parts.drop (i + 1))
        else parts.getLastD []
      | none => parts.getLastD []
    if infixB "Exited".toList status || infixB "exited".toList status then
      some { service := serviceName, status := status.asString
             exitCode := Int.ofNat ((exitedCodeSearch status).getD 0)
             exited := true }
    else
      some { service := serviceName, status := status.asString
             exitCode := 0, exited := false }

/-- One poll: split the `ps` output into lines that are non-blank after
trimming (JS truthiness of `line.trim()`), skip header lines, and collect
a status per tracked service per matching line. -/
def pollStatuses (testContainers : List String) (stdout : String) :
    List ContainerStatus :=
  let lines := (splitOnChar '\n' stdout.toList).filter
    (fun l => l.any (fun c => !c.isWhitespace))
  lines.foldl (fun acc line =>
    if isHeaderLine line then acc
    else acc ++ testContainers.filterMap (statusOfLine line)) []

/-- The resolution test of one poll: every tracked service was found, every
parsed status is terminal, and exactly one status per tracked service was
collected. -/
def pollResolves (testContainers : List String) (stdout : String) : Bool :=
  let statuses := pollStatuses testContainers stdout
  let foundContainers := statuses.map (fun c => c.service)
  testContainers.all (fun n => n ∈ foundContainers) &&
    (!statuses.isEmpty && statuses.all (fun c => c.exited) &&
      statuses.length = testContainers.length)

/-- The per-service failures reported by a resolving poll. -/
def pollFailures (testContainers : List String) (stdout : String) :
    List (String × Int) :=
  ((pollStatuses testContainers stdout).filter
    (fun c => c.exitCode ≠ 0)).map (fun c => (c.service, c.exitCode))

/-- Outcome of the wait: overall success, overall failure with the
per-service nonzero exit codes, or timeout. -/
inductive WaitOutcome where
  | completedOk
  | completedFailed (failed : List (String × Int))
  | timedOut
deriving DecidableEq, Repr

/-- The polling loop of `waitForTestContainers`: a failed `ps` invocation
(`none`) is still pending; a resolving poll yields failure when any tracked
exit code is nonzero and success otherwise; exhausting the polls is the
timeout. -/
def waitLoop (testContainers : List String) :
    List (Option String) → WaitOutcome
  | [] => .timedOut
  | poll :: rest =>
    match poll with
    | none => waitLoop testContainers rest
    | some stdout =>
      if pollResolves testContainers stdout then
        if (pollFailures testContainers stdout).isEmpty then .completedOk
        else .completedFailed (pollFailures testContainers stdout)
      else waitLoop testContainers rest

/-- `ComposeInvoker.waitForTestContainers(composeFile, testContainers)`
over a given sequence of polls; an empty tracked list succeeds at once. -/
def waitForTestContainers (testContainers : List String)
    (polls : List (Option String)) : WaitOutcome :=
  if testContainers.isEmpty then .completedOk
  else waitLoop testContainers polls

/-! ## Lemmas: first-occurrence deduplication -/

theorem mem_dedupFirst (l : List String) :
    ∀ (seen : List String) (x : String),
      x ∈ dedupFirst seen l ↔ x ∈ l ∧ x ∉ seen := by
  induction l with
  | nil => intro seen x; simp [dedupFirst]
  | cons a t ih =>
    intro seen x
    by_cases ha : a ∈ seen
    · rw [dedupFirst, if_pos ha, ih]
      constructor
      · rintro ⟨hx, hs⟩
        exact ⟨List.mem_cons_of_mem _ hx, hs⟩
      · rintro ⟨hx, hs⟩
        rcases List.mem_cons.mp hx with rfl | hx'
        · exact absurd ha hs
        · exact ⟨hx', hs⟩
    · rw [dedupFirst, if_neg ha]
      constructor
      · intro hx
        rcases List.mem_cons.mp hx with rfl | hx'
        · exact ⟨List.mem_cons_self _ _, ha⟩
        · obtain ⟨h1, h2⟩ := (ih (a :: seen) x).mp hx'
          exact ⟨List.mem_cons_of_mem _ h1,
            fun hs => h2 (List.mem_cons_of_mem _ hs)⟩
      · rintro ⟨hx, hs⟩
        rcases List.mem_cons.mp hx with rfl | hx'
        · exact List.mem_cons_self _ _
        · by_cases hxa : x = a
          · subst hxa; exact List.mem_cons_self _ _
          · exact List.mem_cons_of_mem _ ((ih (a :: seen) x).mpr
              ⟨hx', fun hm => (List.mem_cons.mp hm).elim hxa hs⟩)

theorem dedupFirst_nodup (l : List String) :
    ∀ seen : List String, (dedupFirst seen l).Nodup := by
  induction l with
  | nil => intro seen; simp [dedupFirst]
  | cons a t ih =>
    intro seen
    by_cases ha : a ∈ seen
    · simpa [dedupFirst, if_pos ha] using ih seen
    · simp only [dedupFirst, if_neg ha, List.nodup_cons]
      refine ⟨fun hmem => ?_, ih (a :: seen)⟩
      exact ((mem_dedupFirst t (a :: seen) a).mp hmem).2 (List.mem_cons_self _ _)

theorem dedupFirst_pairwise (l : List String) :
    ∀ seen : List String,
      List.Pairwise (fun x y => l.indexOf x < l.indexOf y)
        (dedupFirst seen l) := by
  induction l with
  | nil => intro seen; simp [dedupFirst]
  | cons a t ih =>
    intro seen
    by_cases ha : a ∈ seen
    · rw [dedupFirst, if_pos ha]
      refine (ih seen).imp_of_mem ?_
      intro x y hx hy hlt
      have hxs := (mem_dedupFirst t seen x).mp hx
      have hys := (mem_dedupFirst t seen y).mp hy
      have hxa : a ≠ x := fun h => hxs.2 (h ▸ ha)
      have hya : a ≠ y := fun h => hys.2 (h ▸ ha)
      rw [List.indexOf_cons_ne t hxa, List.indexOf_cons_ne t hya]
      exact Nat.succ_lt_succ hlt
    · rw [dedupFirst, if_neg ha]
      refine List.Pairwise.cons ?_ ?_
      · intro y hy
        have hys := (mem_dedupFirst t (a :: seen) y).mp hy
        have hya : a ≠ y := fun h => hys.2 (h ▸ List.mem_cons_self _ _)
        rw [List.indexOf_cons_self, List.indexOf_cons_ne t hya]
        exact Nat.succ_pos _
      · refine (ih (a :: seen)).imp_of_mem ?_
        intro x y hx hy hlt
        have hxs := (mem_dedupFirst t (a :: seen) x).mp hx
        have hys := (mem_dedupFirst t (a :: seen) y).mp hy
        have hxa : a ≠ x := fun h => hxs.2 (h ▸ List.mem_cons_self _ _)
        have hya : a ≠ y := fun h => hys.2 (h ▸ List.mem_cons_self _ _)
        rw [List.indexOf_cons_ne t hxa, List.indexOf_cons_ne t hya]
        exact Nat.succ_lt_succ hlt

theorem dedupFirst_sublist (l : List String) :
    ∀ seen : List String, (dedupFirst seen l).Sublist l := by
  induction l with
  | nil => intro seen; simp [dedupFirst]
  | cons a t ih =>
    intro seen
    by_cases ha : a ∈ seen
    · simpa [dedupFirst, if_pos ha] using (ih seen).trans (List.sublist_cons_self a t)
    · simpa [dedupFirst, if_neg ha] using (ih (a :: seen)).cons₂ a

/-! ## Claim C2 -/

/-- Claim C2 (counterexample): compiling a service `api` that depends on a
healthcheck-free `postgres` yields an `api` entry whose `dependsOn` is the
bare name list `["postgres"]`, not a mapping carrying the per-dependency
wait condition `service_started` that the claim asserts. -/
theorem c2_depends_on_conditions_counterexample :
    ((lookupA "api" (generateComposeObject
        { services :=
            [("api", { image := "x", port := some 3000,
                       depends_on := some ["postgres"] }),
             ("postgres", { image := "postgres",
                            ports := some ["5432:5432"] })] }
        true).services).map (fun e => e.depends_on))
      = some (some (.short ["postgres"])) ∧
    ((lookupA "api" (generateComposeObject
        { services :=
            [("api", { image := "x", port := some 3000,
                       depends_on := some ["postgres"] }),
             ("postgres", { image := "postgres",
                            ports := some ["5432:5432"] })] }
        true).services).map (fun e => e.depends_on))
      ≠ some (some (.long [("postgres", "service_started")])) := by
  constructor
  · decide
  · decide

/-- Claim C2 (amended): a compiled non-gateway service entry carries its
resolved dependencies as a plain deduplicated name list in first-seen
order (short form, no per-dependency wait condition), or no `depends_on`
field at all when there are none; only the injected gateway carries
conditions.  First-seen order is pinned by the pairwise conjunct: the
emitted names are strictly ordered by the index of their first occurrence
in the resolved dependency list. -/
theorem c2_depends_on_short_form (service : Service)
    (centralizedDeps : List (String × List String))
    (usedPorts : List Int) (currentPort : Int) :
    (resolveDependencies service centralizedDeps = [] →
      (convertServiceToCompose service centralizedDeps usedPorts
        currentPort).1.depends_on = none) ∧
    (resolveDependencies service centralizedDeps ≠ [] →
      ∃ names,
        (convertServiceToCompose service centralizedDeps usedPorts
          currentPort).1.depends_on = some (.short names) ∧
        names.Nodup ∧
        (∀ x, x ∈ names ↔ x ∈ resolveDependencies service centralizedDeps) ∧
        names.Sublist (resolveDependencies service centralizedDeps) ∧
        List.Pairwise (fun x y =>
          (resolveDependencies service centralizedDeps).indexOf x <
            (resolveDependencies service centralizedDeps).indexOf y)
          names) := by
  constructor
  · intro h
    simp [convertServiceToCompose, h]
  · intro h
    refine ⟨dedupFirst [] (resolveDependencies service centralizedDeps),
      ?_, dedupFirst_nodup _ _, ?_, dedupFirst_sublist _ _,
      dedupFirst_pairwise _ _⟩
    · have hlen : 0 < (resolveDependencies service centralizedDeps).length :=
        List.length_pos.mpr h
      simp [convertServiceToCompose, hlen]
    · intro x
      rw [mem_dedupFirst]
      simp

/-- Witness for `c2_depends_on_short_form` at a concrete service with one
explicit dependency and one group-contributed dependency. -/
theorem c2_depends_on_short_form_witness :
    resolveDependencies
        { image := "x", depends_on := some ["postgres"],
          dependencyGroups := some ["g"] }
        [("g", ["cache", "postgres"])] ≠ [] ∧
    ∃ names,
      (convertServiceToCompose
          { image := "x", depends_on := some ["postgres"],
            dependencyGroups := some ["g"] }
          [("g", ["cache", "postgres"])] [] 3000).1.depends_on
        = some (.short names) ∧
      names.Nodup ∧
      (∀ x, x ∈ names ↔ x ∈ resolveDependencies
        { image := "x", depends_on := some ["postgres"],
          dependencyGroups := some ["g"] }
        [("g", ["cache", "postgres"])]) ∧
      names.Sublist (resolveDependencies
        { image := "x", depends_on := some ["postgres"],
          dependencyGroups := some ["g"] }
        [("g", ["cache", "postgres"])]) ∧
      List.Pairwise (fun x y =>
        (resolveDependencies
          { image := "x", depends_on := some ["postgres"],
            dependencyGroups := some ["g"] }
          [("g", ["cache", "postgres"])]).indexOf x <
        (resolveDependencies
          { image := "x", depends_on := some ["postgres"],
            dependencyGroups := some ["g"] }
          [("g", ["cache", "postgres"])]).indexOf y) names :=
  ⟨by decide,
   (c2_depends_on_short_form
      { image := "x", depends_on := some ["postgres"],
        dependencyGroups := some ["g"] }
      [("g", ["cache", "postgres"])] [] 3000).2 (by decide)⟩

/-! ## Lemmas: association-list lookup -/

theorem lookupA_isSome_of_mem {β : Type} (l : List (String × β))
    (k : String) (v : β) (h : (k, v) ∈ l) :
    (lookupA k l).isSome = true := by
  induction l with
  | nil => cases h
  | cons p rest ih =>
    obtain ⟨a, b⟩ := p
    rw [lookupA]
    by_cases hk : k = a
    · simp [hk]
    · rcases List.mem_cons.mp h with heq | h'
      · exact absurd (congrArg Prod.fst heq) hk
      · simpa [hk] using ih h'

theorem lookupA_eq_none_iff {β : Type} (l : List (String × β)) (k : String) :
    lookupA k l = none ↔ k ∉ l.map Prod.fst := by
  induction l with
  | nil => simp [lookupA]
  | cons p rest ih =>
    obtain ⟨a, b⟩ := p
    rw [lookupA]
    by_cases hk : k = a
    · simp [hk]
    · simpa [hk] using ih

theorem lookupA_mem {β : Type} (l : List (String × β)) (k : String) (v : β)
    (h : lookupA k l = some v) : (k, v) ∈ l := by
  induction l with
  | nil => cases h
  | cons p rest ih =>
    obtain ⟨a, b⟩ := p
    rw [lookupA] at h
    by_cases hk : k = a
    · rw [if_pos hk] at h
      exact List.mem_cons.mpr (Or.inl (by cases h; rw [hk]))
    · rw [if_neg hk] at h
      exact List.mem_cons.mpr (Or.inr (ih h))

/-! ## Claim C3 -/

/-- Claim C3: with gateway injection enabled and a non-empty compiled
service list, the compiled document is the service list with an appended
`xq-gateway` entry whose `dependsOn` pairs every compiled service, in
order, with `service_healthy` exactly when that compiled entry carries a
healthcheck and `service_started` exactly when it does not. -/
theorem c3_gateway_wait_conditions (spec : Spec)
    (h : compileServices (spec.dependencies.getD [])
      spec.services [] (startPort spec) ≠ []) :
    ∃ gw : ComposeService,
      (generateComposeObject spec true).services
        = compileServices (spec.dependencies.getD [])
            spec.services [] (startPort spec) ++ [("xq-gateway", gw)] ∧
      gw.depends_on = some (.long (gatewayDependsOn
        (compileServices (spec.dependencies.getD [])
          spec.services [] (startPort spec)))) ∧
      List.Forall₂
        (fun (entry : String × ComposeService) (cond : String × String) =>
          cond.1 = entry.1 ∧
          (cond.2 = "service_healthy" ↔ entry.2.healthcheck.isSome = true) ∧
          (cond.2 = "service_started" ↔ entry.2.healthcheck = none))
        (compileServices (spec.dependencies.getD [])
          spec.services [] (startPort spec))
        (gatewayDependsOn (compileServices (spec.dependencies.getD [])
          spec.services [] (startPort spec))) := by
  set svcs := compileServices (spec.dependencies.getD [])
    spec.services [] (startPort spec) with hsvcs
  have hne : svcs.isEmpty = false := by
    cases hsv : svcs.isEmpty
    · rfl
    · exact absurd (List.isEmpty_iff.mp hsv) h
  refine ⟨{ image := "nginx:alpine"
            ports := some [toString (findFree (gatewayUsedPorts svcs) 8080)
              ++ ":80"]
            volumes := some [nginxConfigPath ++ ":/etc/nginx/nginx.conf:ro"]
            networks := ["xq-network"]
            depends_on := some (.long (gatewayDependsOn svcs)) }, ?_, rfl, ?_⟩
  · simp [generateComposeObject, addGateway, hne, ← hsvcs]
  · clear hne h hsvcs
    induction svcs with
    | nil => exact List.Forall₂.nil
    | cons e rest ih =>
      rw [gatewayDependsOn, List.map_cons]
      rw [gatewayDependsOn] at ih
      refine List.Forall₂.cons ?_ ih
      by_cases hc : e.2.healthcheck.isSome = true
      · have hcond : (if e.2.healthcheck.isSome then "service_healthy"
            else "service_started") = "service_healthy" := by
          rw [hc]; rfl
        have hne2 : e.2.healthcheck ≠ none :=
          Option.isSome_iff_ne_none.mp hc
        refine ⟨rfl, ?_, ?_⟩
        · show (if e.2.healthcheck.isSome then "service_healthy"
              else "service_started") = "service_healthy"
            ↔ e.2.healthcheck.isSome = true
          rw [hcond]
          exact ⟨fun _ => hc, fun _ => rfl⟩
        · show (if e.2.healthcheck.isSome then "service_healthy"
              else "service_started") = "service_started"
            ↔ e.2.healthcheck = none
          rw [hcond]
          exact ⟨fun habs => absurd habs (by decide),
            fun hn => absurd hn hne2⟩
      · have hc' : e.2.healthcheck.isSome = false := by
          cases hcv : e.2.healthcheck.isSome
          · rfl
          · exact absurd hcv hc
        have hcond : (if e.2.healthcheck.isSome then "service_healthy"
            else "service_started") = "service_started" := by
          rw [hc']; rfl
        have hnone : e.2.healthcheck = none :=
          Option.not_isSome_iff_eq_none.mp (by simp [hc'])
        refine ⟨rfl, ?_, ?_⟩
        · show (if e.2.healthcheck.isSome then "service_healthy"
              else "service_started") = "service_healthy"
            ↔ e.2.healthcheck.isSome = true
          rw [hcond]
          exact ⟨fun habs => absurd habs (by decide), fun hs => absurd hs hc⟩
        · show (if e.2.healthcheck.isSome then "service_healthy"
              else "service_started") = "service_started"
            ↔ e.2.healthcheck = none
          rw [hcond]
          exact ⟨fun _ => hnone, fun _ => rfl⟩

/-- Witness for `c3_gateway_wait_conditions`: a service with a healthcheck
and one without get conditions `service_healthy` and `service_started`. -/
theorem c3_gateway_wait_conditions_witness :
    compileServices [] [("a", { image := "a", healthcheck := some "hc" }),
                        ("b", { image := "b" })] [] 3000 ≠ [] ∧
    ∃ gw : ComposeService,
      (generateComposeObject
        { services := [("a", { image := "a", healthcheck := some "hc" }),
                       ("b", { image := "b" })] } true).services
        = compileServices []
            [("a", { image := "a", healthcheck := some "hc" }),
             ("b", { image := "b" })] [] 3000 ++ [("xq-gateway", gw)] ∧
      gw.depends_on = some (.long (gatewayDependsOn
        (compileServices []
          [("a", { image := "a", healthcheck := some "hc" }),
           ("b", { image := "b" })] [] 3000))) ∧
      List.Forall₂
        (fun (entry : String × ComposeService) (cond : String × String) =>
          cond.1 = entry.1 ∧
          (cond.2 = "service_healthy" ↔ entry.2.healthcheck.isSome = true) ∧
          (cond.2 = "service_started" ↔ entry.2.healthcheck = none))
        (compileServices []
          [("a", { image := "a", healthcheck := some "hc" }),
           ("b", { image := "b" })] [] 3000)
        (gatewayDependsOn (compileServices []
          [("a", { image := "a", healthcheck := some "hc" }),
           ("b", { image := "b" })] [] 3000)) :=
  ⟨by decide,
   c3_gateway_wait_conditions
     { services := [("a", { image := "a", healthcheck := some "hc" }),
                    ("b", { image := "b" })] }
     (by decide)⟩

/-! ## Claim C9 -/

/-- Claim C9: an override entry for an existing service replaces exactly
the fields it lists (whole-value replacement) and leaves every unlisted
field as specified; entries of other services are untouched; an override
naming a service absent from the specification changes nothing. -/
theorem c9_override_frame :
    (∀ (spec : Spec) (overrides : List (String × ServiceOverride)),
      (∀ e ∈ overrides, lookupA e.1 spec.services = none) →
      applyOverrides spec overrides = spec) ∧
    (∀ (spec : Spec) (name : String) (o : ServiceOverride)
        (n : String) (s : Service), n ≠ name → (n, s) ∈ spec.services →
      (n, s) ∈ (applyOverrides spec [(name, o)]).services) ∧
    (∀ (spec : Spec) (name : String) (o : ServiceOverride) (s : Service),
      (name, s) ∈ spec.services →
      (name, assignOverride s o) ∈ (applyOverrides spec [(name, o)]).services) ∧
    (∀ (s : Service) (o : ServiceOverride),
      (o.image = none → (assignOverride s o).image = s.image) ∧
      (o.tag = none → (assignOverride s o).tag = s.tag) ∧
      (o.ports = none → (assignOverride s o).ports = s.ports) ∧
      (o.port = none → (assignOverride s o).port = s.port) ∧
      (o.autoPort = none → (assignOverride s o).autoPort = s.autoPort) ∧
      (o.environment = none →
        (assignOverride s o).environment = s.environment) ∧
      (o.volumes = none → (assignOverride s o).volumes = s.volumes) ∧
      (o.command = none → (assignOverride s o).command = s.command) ∧
      (o.healthcheck = none →
        (assignOverride s o).healthcheck = s.healthcheck) ∧
      (o.depends_on = none →
        (assignOverride s o).depends_on = s.depends_on) ∧
      (o.dependencyGroups = none →
        (assignOverride s o).dependencyGroups = s.dependencyGroups) ∧
      (o.routes = none → (assignOverride s o).routes = s.routes) ∧
      (∀ v, o.image = some v → (assignOverride s o).image = v) ∧
      (∀ v, o.tag = some v → (assignOverride s o).tag = some v) ∧
      (∀ v, o.ports = some v → (assignOverride s o).ports = some v) ∧
      (∀ v, o.port = some v → (assignOverride s o).port = some v) ∧
      (∀ v, o.autoPort = some v → (assignOverride s o).autoPort = some v) ∧
      (∀ v, o.environment = some v →
        (assignOverride s o).environment = some v) ∧
      (∀ v, o.volumes = some v → (assignOverride s o).volumes = some v) ∧
      (∀ v, o.command = some v → (assignOverride s o).command = some v) ∧
      (∀ v, o.healthcheck = some v →
        (assignOverride s o).healthcheck = some v) ∧
      (∀ v, o.depends_on = some v →
        (assignOverride s o).depends_on = some v) ∧
      (∀ v, o.dependencyGroups = some v →
        (assignOverride s o).dependencyGroups = some v) ∧
      (∀ v, o.routes = some v → (assignOverride s o).routes = some v)) := by
  refine ⟨?_, ?_, ?_, ?_⟩
  · intro spec overrides
    induction overrides generalizing spec with
    | nil => intro _; rfl
    | cons e rest ih =>
      intro hnone
      have hstep : (applyOverrides spec (e :: rest))
          = applyOverrides spec rest := by
        rw [applyOverrides, List.foldl_cons]
        rw [hnone e (List.mem_cons_self _ _)]
        rfl
      rw [hstep]
      exact ih spec (fun e' he' => hnone e' (List.mem_cons_of_mem _ he'))
  · intro spec name o n s hne hmem
    rw [applyOverrides, List.foldl_cons, List.foldl_nil]
    by_cases hl : (lookupA name spec.services).isSome
    · simp only [hl, if_pos]
      refine List.mem_map.mpr ⟨(n, s), hmem, ?_⟩
      simp [hne]
    · simp only [hl, if_neg]
      simpa using hmem
  · intro spec name o s hmem
    rw [applyOverrides, List.foldl_cons, List.foldl_nil]
    have hl : (lookupA name spec.services).isSome = true :=
      lookupA_isSome_of_mem _ _ _ hmem
    simp only [hl, if_pos]
    exact List.mem_map.mpr ⟨(name, s), hmem, by simp⟩
  · intro s o
    refine ⟨?_, ?_, ?_, ?_, ?_, ?_, ?_, ?_, ?_, ?_, ?_, ?_,
      ?_, ?_, ?_, ?_, ?_, ?_, ?_, ?_, ?_, ?_, ?_, ?_⟩ <;>
      first
      | (intro h; simp [assignOverride, h])
      | (intro v h; simp [assignOverride, h])

/-- Witness for `c9_override_frame`: overriding only `tag` and
`environment` of an existing service leaves `image` and `volumes` as
specified, and an override naming an absent service changes nothing. -/
theorem c9_override_frame_witness :
    ("api", { image := "img", tag := some "v2",
              environment := some [("K", "v")],
              volumes := some ["data:/data"] })
      ∈ (applyOverrides
          { services :=
              [("api", { image := "img", tag := some "v1",
                         volumes := some ["data:/data"] })] }
          [("api", { tag := some "v2",
                     environment := some [("K", "v")] })]).services ∧
    applyOverrides
        { services := [("api", { image := "img" })] }
        [("ghost", { tag := some "v9" })]
      = { services := [("api", { image := "img" })] } := by
  constructor
  · have h := (c9_override_frame.2.2.1)
      { services :=
          [("api", { image := "img", tag := some "v1",
                     volumes := some ["data:/data"] })] }
      "api" { tag := some "v2", environment := some [("K", "v")] }
      { image := "img", tag := some "v1", volumes := some ["data:/data"] }
      (by decide)
    simpa using h
  · exact (c9_override_frame.1)
      { services := [("api", { image := "img" })] }
      [("ghost", { tag := some "v9" })] (by decide)

/-! ## Lemmas: folds that only append -/

theorem foldl_eq_append {α β : Type} (f : List β → α → List β)
    (t : α → List β) (hf : ∀ acc x, f acc x = acc ++ t x) :
    ∀ (l : List α) (acc : List β), l.foldl f acc = acc ++ l.flatMap t := by
  intro l
  induction l with
  | nil => intro acc; simp
  | cons x xs ih =>
    intro acc
    rw [List.foldl_cons, ih (f acc x), hf, List.flatMap_cons,
      List.append_assoc]

/-! ## Claim C7 -/

/-- The compiled routes one services-map entry contributes to
`parseRoutes` (used to state `parseRoutes` as a flat map). -/
def routeEntriesOf (entry : String × GwService) : List RouteEntry :=
  if entry.1 = "xq-gateway" then []
  else
    match entry.2.routes with
    | none => []
    | some rs =>
      rs.flatMap (fun route =>
        match route.paths with
        | none => []
        | some ps =>
          [{ serviceName := entry.1
             port := extractContainerPort entry.2.ports
             methods := defaultedMethods route.methods
             paths := ps }])

theorem parseRoutes_eq_flatMap (m : List (String × GwService)) :
    parseRoutes m = m.flatMap routeEntriesOf := by
  rw [parseRoutes]
  rw [foldl_eq_append _ routeEntriesOf ?_ m []]
  · rfl
  · intro acc entry
    rw [routeEntriesOf]
    by_cases hg : entry.1 = "xq-gateway"
    · simp [hg]
    · rw [if_neg hg, if_neg hg]
      cases hrt : entry.2.routes with
      | none => simp
      | some rs =>
        exact foldl_eq_append
          (fun acc2 route =>
            match route.paths with
            | none => acc2
            | some ps =>
              acc2 ++ [{ serviceName := entry.1
                         port := extractContainerPort entry.2.ports
                         methods := defaultedMethods route.methods
                         paths := ps }])
          (fun route =>
            match route.paths with
            | none => []
            | some ps =>
              [{ serviceName := entry.1
                 port := extractContainerPort entry.2.ports
                 methods := defaultedMethods route.methods
                 paths := ps }])
          (fun acc2 route => by cases hp : route.paths <;> simp [hp]) rs acc

/-- Claim C7 (counterexample): a route rule with an explicitly empty
`methods` sequence is compiled with an empty method set, not with the full
standard HTTP method set the claim asserts (JS `route.methods || default`
falls back only when the field is absent, and an empty array is truthy). -/
theorem c7_empty_methods_counterexample :
    (parseRoutes
      [("s", { routes := some [{ methods := some [],
                                 paths := some ["/p"] }] })]).map
        (fun e => e.methods) = [[]] ∧
    (parseRoutes
      [("s", { routes := some [{ methods := some [],
                                 paths := some ["/p"] }] })]).map
        (fun e => e.methods) ≠ [standardMethods] := by
  exact ⟨by decide, by decide⟩

/-- Claim C7 (amended): the route compiler defaults a rule to the full
standard HTTP method set exactly when the `methods` field is absent; an
explicitly empty `methods` sequence is kept empty (matching no methods).
Every rule with a `paths` array of a non-gateway service is emitted with
`defaultedMethods` of its `methods` field. -/
theorem c7_method_defaulting :
    defaultedMethods none = standardMethods ∧
    (∀ ms : List String, defaultedMethods (some ms) = ms) ∧
    (∀ (m : List (String × GwService)) (n : String) (svc : GwService)
        (rs : List RouteRule) (route : RouteRule) (ps : List String),
      (n, svc) ∈ m → n ≠ "xq-gateway" → svc.routes = some rs →
      route ∈ rs → route.paths = some ps →
      { serviceName := n
        port := extractContainerPort svc.ports
        methods := defaultedMethods route.methods
        paths := ps : RouteEntry } ∈ parseRoutes m) := by
  refine ⟨rfl, fun _ => rfl, ?_⟩
  intro m n svc rs route ps hmem hg hroutes hr hp
  rw [parseRoutes_eq_flatMap]
  refine List.mem_flatMap.mpr ⟨(n, svc), hmem, ?_⟩
  rw [routeEntriesOf, if_neg hg, hroutes]
  exact List.mem_flatMap.mpr ⟨route, hr, by rw [hp]; exact List.mem_singleton.mpr rfl⟩

/-- Witness for `c7_method_defaulting`: a rule without a `methods` field
compiles to the full standard set; a rule with `methods: [GET]` keeps it. -/
theorem c7_method_defaulting_witness :
    { serviceName := "a", port := 80,
      methods := standardMethods, paths := ["/x"] : RouteEntry }
      ∈ parseRoutes [("a", { routes := some [{ paths := some ["/x"] }] })] ∧
    { serviceName := "b", port := 80,
      methods := ["GET"], paths := ["/y"] : RouteEntry }
      ∈ parseRoutes [("b", { routes := some [{ methods := some ["GET"],
                                               paths := some ["/y"] }] })] := by
  constructor
  · have h := c7_method_defaulting.2.2
      [("a", { routes := some [{ paths := some ["/x"] }] })]
      "a" { routes := some [{ paths := some ["/x"] }] }
      [{ paths := some ["/x"] }] { paths := some ["/x"] } ["/x"]
      (by decide) (by decide) rfl (by decide) rfl
    simpa using h
  · have h := c7_method_defaulting.2.2
      [("b", { routes := some [{ methods := some ["GET"],
                                 paths := some ["/y"] }] })]
      "b" { routes := some [{ methods := some ["GET"], paths := some ["/y"] }] }
      [{ methods := some ["GET"], paths := some ["/y"] }]
      { methods := some ["GET"], paths := some ["/y"] } ["/y"]
      (by decide) (by decide) rfl (by decide) rfl
    simpa using h

/-! ## Lemmas: insertion-ordered grouping maps -/

theorem setAdd_ne_nil (vs : List String) (v : String) : setAdd vs v ≠ [] := by
  rw [setAdd]
  by_cases hv : v ∈ vs
  · rw [if_pos hv]
    intro h
    rw [h] at hv
    cases hv
  · rw [if_neg hv]
    simp

theorem setAdd_headD (vs : List String) (v d : String) (h : vs ≠ []) :
    (setAdd vs v).headD d = vs.headD d := by
  rw [setAdd]
  by_cases hv : v ∈ vs
  · rw [if_pos hv]
  · rw [if_neg hv]
    cases vs with
    | nil => exact absurd rfl h
    | cons a t => rfl

theorem setAdd_idem (vs : List String) (v : String) :
    setAdd (setAdd vs v) v = setAdd vs v := by
  have hv2 : v ∈ setAdd vs v := by
    rw [setAdd]
    by_cases hv : v ∈ vs
    · rwa [if_pos hv]
    · rw [if_neg hv]
      exact List.mem_append.mpr (Or.inr (List.mem_singleton.mpr rfl))
  rw [setAdd, if_pos hv2]

theorem lookupA_upsertSet (key v : String)
    (mg : List (String × List String)) (k : String) :
    lookupA k (upsertSet key v mg) =
      if k = key then some (setAdd ((lookupA key mg).getD []) v)
      else lookupA k mg := by
  induction mg with
  | nil =>
    by_cases hk : k = key
    · subst hk
      simp [upsertSet, lookupA, setAdd]
    · simp [upsertSet, lookupA, hk]
  | cons p rest ih =>
    obtain ⟨a, vs⟩ := p
    by_cases ha : a = key
    · subst ha
      by_cases hk : k = a
      · subst hk
        simp [upsertSet, lookupA]
      · simp [upsertSet, lookupA, hk]
    · have ha' : ¬ key = a := fun h => ha h.symm
      by_cases hk : k = a
      · subst hk
        simp [upsertSet, lookupA, ha, ha']
      · simp [upsertSet, lookupA, ha, ha', hk, ih]

theorem lookupA_upsert {β : Type} (key : String) (v : β)
    (mg : List (String × List β)) (k : String) :
    lookupA k (upsert key v mg) =
      if k = key then some (((lookupA key mg).getD []) ++ [v])
      else lookupA k mg := by
  induction mg with
  | nil =>
    by_cases hk : k = key
    · subst hk
      simp [upsert, lookupA]
    · simp [upsert, lookupA, hk]
  | cons p rest ih =>
    obtain ⟨a, vs⟩ := p
    by_cases ha : a = key
    · subst ha
      by_cases hk : k = a
      · subst hk
        simp [upsert, lookupA]
      · simp [upsert, lookupA, hk]
    · have ha' : ¬ key = a := fun h => ha h.symm
      by_cases hk : k = a
      · subst hk
        simp [upsert, lookupA, ha, ha']
      · simp [upsert, lookupA, ha, ha', hk, ih]

theorem keys_upsertSet (key v : String) (mg : List (String × List String)) :
    (upsertSet key v mg).map Prod.fst =
      if key ∈ mg.map Prod.fst then mg.map Prod.fst
      else mg.map Prod.fst ++ [key] := by
  induction mg with
  | nil => simp [upsertSet]
  | cons p rest ih =>
    obtain ⟨a, vs⟩ := p
    by_cases ha : a = key
    · subst ha
      simp [upsertSet]
    · have ha' : ¬ key = a := fun h => ha h.symm
      rw [upsertSet, if_neg ha]
      by_cases hk : key ∈ rest.map Prod.fst
      · simp [ih, hk, ha']
      · simp [ih, hk, ha']

theorem keys_upsert {β : Type} (key : String) (v : β)
    (mg : List (String × List β)) :
    (upsert key v mg).map Prod.fst =
      if key ∈ mg.map Prod.fst then mg.map Prod.fst
      else mg.map Prod.fst ++ [key] := by
  induction mg with
  | nil => simp [upsert]
  | cons p rest ih =>
    obtain ⟨a, vs⟩ := p
    by_cases ha : a = key
    · subst ha
      simp [upsert]
    · have ha' : ¬ key = a := fun h => ha h.symm
      rw [upsert, if_neg ha]
      by_cases hk : key ∈ rest.map Prod.fst
      · simp [ih, hk, ha']
      · simp [ih, hk, ha']

theorem nodup_keys_upsertSet (key v : String)
    (mg : List (String × List String))
    (h : (mg.map Prod.fst).Nodup) :
    ((upsertSet key v mg).map Prod.fst).Nodup := by
  rw [keys_upsertSet]
  by_cases hk : key ∈ mg.map Prod.fst
  · rwa [if_pos hk]
  · rw [if_neg hk]
    simp [List.nodup_append, h, hk]

theorem nodup_keys_upsert {β : Type} (key : String) (v : β)
    (mg : List (String × List β))
    (h : (mg.map Prod.fst).Nodup) :
    ((upsert key v mg).map Prod.fst).Nodup := by
  rw [keys_upsert]
  by_cases hk : key ∈ mg.map Prod.fst
  · rwa [if_pos hk]
  · rw [if_neg hk]
    simp [List.nodup_append, h, hk]

theorem mem_of_nodup_lookupA {β : Type} (l : List (String × β))
    (h : (l.map Prod.fst).Nodup) (k : String) (v : β)
    (hmem : (k, v) ∈ l) : lookupA k l = some v := by
  induction l with
  | nil => cases hmem
  | cons p rest ih =>
    obtain ⟨a, b⟩ := p
    rcases List.mem_cons.mp hmem with heq | h'
    · obtain ⟨h1, h2⟩ := Prod.mk.injEq .. ▸ heq
      cases heq
      simp [lookupA]
    · rw [List.map_cons, List.nodup_cons] at h
      have hk : k ≠ a := by
        intro hka
        subst hka
        exact h.1 (List.mem_map.mpr ⟨(k, v), h', rfl⟩)
      rw [lookupA, if_neg hk]
      exact ih h.2 h'

/-! ## Lemmas: the route grouping folds -/

theorem lookupA_foldMethods (sn : String) (ms : List String) :
    ∀ (mg : List (String × List String)) (m : String),
      lookupA m (ms.foldl (fun mg' m' => upsertSet m' sn mg') mg) =
        if m ∈ ms then some (setAdd ((lookupA m mg).getD []) sn)
        else lookupA m mg := by
  induction ms with
  | nil =>
    intro mg m
    simp
  | cons m' ms ih =>
    intro mg m
    rw [List.foldl_cons, ih]
    by_cases hm : m = m'
    · subst hm
      have hup : lookupA m (upsertSet m sn mg)
          = some (setAdd ((lookupA m mg).getD []) sn) := by
        rw [lookupA_upsertSet, if_pos rfl]
      by_cases hms : m ∈ ms
      · rw [if_pos hms, if_pos (List.mem_cons_self _ _), hup]
        simp [setAdd_idem]
      · rw [if_neg hms, if_pos (List.mem_cons_self _ _), hup]
    · have hup : lookupA m (upsertSet m' sn mg) = lookupA m mg := by
        rw [lookupA_upsertSet, if_neg hm]
      by_cases hms : m ∈ ms
      · rw [if_pos hms, if_pos (List.mem_cons_of_mem _ hms), hup]
      · rw [if_neg hms, hup, if_neg (fun hc => hm ?_)]
        rcases List.mem_cons.mp hc with h | h
        · exact h
        · exact absurd h hms

theorem nodup_keys_foldMethods (sn : String) (ms : List String) :
    ∀ mg : List (String × List String), (mg.map Prod.fst).Nodup →
      ((ms.foldl (fun mg' m' => upsertSet m' sn mg') mg).map Prod.fst).Nodup := by
  induction ms with
  | nil => intro mg h; exact h
  | cons m' ms ih =>
    intro mg h
    rw [List.foldl_cons]
    exact ih _ (nodup_keys_upsertSet _ _ _ h)

/-- The per-method view of `methodGroups`: the value stored under method
`m` is nonempty, its head is the service name of the first route config
that declared `m`, and a method no config declared has no entry. -/
theorem methodGroups_head_spec (cfgs : List RouteEntry) (m : String) :
    (∀ ss, lookupA m (methodGroups cfgs) = some ss →
      ss ≠ [] ∧ ∃ c, cfgs.find? (fun c' => decide (m ∈ c'.methods)) = some c ∧
        ss.headD "" = c.serviceName) ∧
    (lookupA m (methodGroups cfgs) = none →
      cfgs.find? (fun c' => decide (m ∈ c'.methods)) = none) := by
  induction cfgs using List.reverseRecOn with
  | nil =>
    constructor
    · intro ss h
      cases h
    · intro _
      rfl
  | append_singleton l c ih =>
    have hfold : methodGroups (l ++ [c])
        = c.methods.foldl (fun mg' m' => upsertSet m' c.serviceName mg')
            (methodGroups l) := by
      rw [methodGroups, methodGroups, List.foldl_append, List.foldl_cons,
        List.foldl_nil]
    have hfind : (l ++ [c]).find? (fun c' => decide (m ∈ c'.methods))
        = (l.find? (fun c' => decide (m ∈ c'.methods))).or
            ([c].find? (fun c' => decide (m ∈ c'.methods))) :=
      List.find?_append
    rw [hfold, lookupA_foldMethods]
    by_cases hc : m ∈ c.methods
    · rw [if_pos hc]
      constructor
      · intro ss hss
        cases hss
        refine ⟨setAdd_ne_nil _ _, ?_⟩
        cases hl : lookupA m (methodGroups l) with
        | some ss0 =>
          obtain ⟨hne, c0, hfind0, hhead⟩ := (ih.1 ss0 hl)
          refine ⟨c0, ?_, ?_⟩
          · rw [hfind, hfind0]
            rfl
          · show (setAdd ss0 c.serviceName).headD "" = c0.serviceName
            rw [setAdd_headD _ _ _ hne]
            exact hhead
        | none =>
          refine ⟨c, ?_, ?_⟩
          · rw [hfind, ih.2 hl]
            simp [List.find?, hc]
          · simp [setAdd]
      · intro habs
        cases habs
    · rw [if_neg hc]
      have hcnone : [c].find? (fun c' => decide (m ∈ c'.methods)) = none := by
        simp [List.find?, hc]
      constructor
      · intro ss hss
        obtain ⟨hne, c0, hfind0, hhead⟩ := ih.1 ss hss
        refine ⟨hne, c0, ?_, hhead⟩
        rw [hfind, hfind0]
        rfl
      · intro hnone
        rw [hfind, ih.2 hnone, hcnone]
        rfl

theorem nodup_keys_methodGroups (cfgs : List RouteEntry) :
    ((methodGroups cfgs).map Prod.fst).Nodup := by
  rw [methodGroups]
  generalize hmg : ([] : List (String × List String)) = mg
  have hnd : (mg.map Prod.fst).Nodup := by rw [← hmg]; exact List.nodup_nil
  clear hmg
  induction cfgs generalizing mg with
  | nil => exact hnd
  | cons c rest ih =>
    rw [List.foldl_cons]
    exact ih _ (nodup_keys_foldMethods _ _ _ hnd)

theorem mem_upsert_cases {β : Type} (key : String) (v : β)
    (gs : List (String × List β)) (p : String) (l : List β)
    (h : (p, l) ∈ upsert key v gs) :
    (p, l) ∈ gs ∨ (p = key ∧ l = [v]) ∨
      (p = key ∧ ∃ l₀, (p, l₀) ∈ gs ∧ l = l₀ ++ [v]) := by
  induction gs with
  | nil =>
    rw [upsert] at h
    rcases List.mem_singleton.mp h with heq
    cases heq
    exact Or.inr (Or.inl ⟨rfl, rfl⟩)
  | cons q rest ih =>
    obtain ⟨a, vs⟩ := q
    by_cases ha : a = key
    · subst ha
      rw [upsert, if_pos rfl] at h
      rcases List.mem_cons.mp h with heq | htail
      · cases heq
        exact Or.inr (Or.inr ⟨rfl, vs, List.mem_cons_self _ _, rfl⟩)
      · exact Or.inl (List.mem_cons_of_mem _ htail)
    · rw [upsert, if_neg ha] at h
      rcases List.mem_cons.mp h with heq | htail
      · cases heq
        exact Or.inl (List.mem_cons_self _ _)
      · rcases ih htail with h1 | h2 | ⟨hp, l₀, hl₀, heq⟩
        · exact Or.inl (List.mem_cons_of_mem _ h1)
        · exact Or.inr (Or.inl h2)
        · exact Or.inr (Or.inr ⟨hp, l₀, List.mem_cons_of_mem _ hl₀, heq⟩)

theorem foldPaths_sound (r : RouteEntry) (routesAll : List RouteEntry)
    (hr : r ∈ routesAll) :
    ∀ (paths : List String) (gs : List (String × List RouteEntry)),
      (∀ p ∈ paths, p ∈ r.paths) →
      (∀ pe ∈ gs, ∀ c ∈ pe.2, c ∈ routesAll ∧ pe.1 ∈ c.paths) →
      ∀ pe ∈ paths.foldl (fun gs' path => upsert path r gs') gs,
        ∀ c ∈ pe.2, c ∈ routesAll ∧ pe.1 ∈ c.paths := by
  intro paths
  induction paths with
  | nil =>
    intro gs _ hinv pe hpe
    exact hinv pe hpe
  | cons p0 ps ih =>
    intro gs hpaths hinv pe hpe
    rw [List.foldl_cons] at hpe
    refine ih _ (fun p hp => hpaths p (List.mem_cons_of_mem _ hp)) ?_ pe hpe
    intro pe' hpe' c hc
    obtain ⟨pq, lq⟩ := pe'
    rcases mem_upsert_cases p0 r gs pq lq hpe' with h1 | ⟨hp, hl⟩ |
        ⟨hp, l₀, hl₀, heq⟩
    · exact hinv _ h1 c hc
    · subst hp
      rw [hl] at hc
      rcases List.mem_singleton.mp hc with rfl
      exact ⟨hr, hpaths _ (List.mem_cons_self _ _)⟩
    · subst hp
      rw [heq] at hc
      rcases List.mem_append.mp hc with hcl | hcr
      · exact hinv _ hl₀ c hcl
      · rcases List.mem_singleton.mp hcr with rfl
        exact ⟨hr, hpaths _ (List.mem_cons_self _ _)⟩

theorem pathGroups_sound (routes : List RouteEntry) :
    ∀ pe ∈ pathGroups routes, ∀ c ∈ pe.2, c ∈ routes ∧ pe.1 ∈ c.paths := by
  rw [pathGroups]
  have main : ∀ (todo : List RouteEntry)
      (gs : List (String × List RouteEntry)),
      (∀ r ∈ todo, r ∈ routes) →
      (∀ pe ∈ gs, ∀ c ∈ pe.2, c ∈ routes ∧ pe.1 ∈ c.paths) →
      ∀ pe ∈ todo.foldl (fun groups route =>
          route.paths.foldl (fun gs' path => upsert path route gs') groups) gs,
        ∀ c ∈ pe.2, c ∈ routes ∧ pe.1 ∈ c.paths := by
    intro todo
    induction todo with
    | nil =>
      intro gs _ hinv pe hpe
      exact hinv pe hpe
    | cons r rest ih =>
      intro gs htodo hinv pe hpe
      rw [List.foldl_cons] at hpe
      refine ih _ (fun r' hr' => htodo r' (List.mem_cons_of_mem _ hr')) ?_ pe hpe
      exact foldPaths_sound r routes (htodo r (List.mem_cons_self _ _))
        r.paths gs (fun _ hp => hp) hinv
  exact main routes [] (fun _ h => h) (by intro pe hpe; cases hpe)

theorem nodup_keys_pathGroups (routes : List RouteEntry) :
    ((pathGroups routes).map Prod.fst).Nodup := by
  rw [pathGroups]
  have inner : ∀ (r : RouteEntry) (paths : List String)
      (gs : List (String × List RouteEntry)),
      (gs.map Prod.fst).Nodup →
      ((paths.foldl (fun gs' path => upsert path r gs') gs).map
        Prod.fst).Nodup := by
    intro r paths
    induction paths with
    | nil => intro gs h; exact h
    | cons p ps ih =>
      intro gs h
      rw [List.foldl_cons]
      exact ih _ (nodup_keys_upsert _ _ _ h)
  have main : ∀ (todo : List RouteEntry)
      (gs : List (String × List RouteEntry)),
      (gs.map Prod.fst).Nodup →
      ((todo.foldl (fun groups route =>
        route.paths.foldl (fun gs' path => upsert path route gs') groups)
          gs).map Prod.fst).Nodup := by
    intro todo
    induction todo with
    | nil => intro gs h; exact h
    | cons r rest ih =>
      intro gs h
      rw [List.foldl_cons]
      exact ih _ (inner r r.paths gs h)
  exact main routes [] List.nodup_nil

/-! ## Claim C6 -/

/-- Claim C6: per distinct path, the compiled location block is a single
unconditional pass-through exactly when one method group and one
contributing rule exist, and otherwise one conditional block per declared
method, each passing to the first route config that declared that method
(first-seen registration wins); there is exactly one block per distinct
path, and two services declaring `GET /api/x` and `POST /api/x` compile to
one block with two conditional method entries. -/
theorem c6_proxy_location_compilation :
    (∀ (routes : List RouteEntry) (path : String) (cfgs : List RouteEntry),
      (path, cfgs) ∈ pathGroups routes →
      (((methodGroups cfgs).length = 1 ∧ cfgs.length = 1) →
        (path, LocBlock.single (match cfgs with
          | c :: _ => c.serviceName
          | [] => "")) ∈ generatePathBasedLocations routes) ∧
      (¬((methodGroups cfgs).length = 1 ∧ cfgs.length = 1) →
        (path, LocBlock.conditional ((methodGroups cfgs).map
          (fun mgrp => (mgrp.1, mgrp.2.headD ""))))
          ∈ generatePathBasedLocations routes)) ∧
    (∀ (cfgs : List RouteEntry) (m : String) (ss : List String),
      (m, ss) ∈ methodGroups cfgs →
      ∃ c, cfgs.find? (fun c' => decide (m ∈ c'.methods)) = some c ∧
        ss.headD "" = c.serviceName) ∧
    (∀ routes : List RouteEntry,
      (generatePathBasedLocations routes).map Prod.fst
        = (pathGroups routes).map Prod.fst ∧
      ((pathGroups routes).map Prod.fst).Nodup) ∧
    (∀ (routes : List RouteEntry) (path : String) (cfgs : List RouteEntry),
      (path, cfgs) ∈ pathGroups routes →
      ∀ c ∈ cfgs, c ∈ routes ∧ path ∈ c.paths) ∧
    (generatePathBasedLocations (parseRoutes
      [("svc1", { ports := some ["3000:3000"],
                  routes := some [{ methods := some ["GET"],
                                    paths := some ["/api/x"] }] }),
       ("svc2", { ports := some ["3001:3001"],
                  routes := some [{ methods := some ["POST"],
                                    paths := some ["/api/x"] }] })])
      = [("/api/x", .conditional [("GET", "svc1"), ("POST", "svc2")])]) := by
  refine ⟨?_, ?_, ?_, ?_, by decide⟩
  · intro routes path cfgs hmem
    constructor
    · intro hcond
      refine List.mem_map.mpr ⟨(path, cfgs), hmem, ?_⟩
      simp [hcond.1, hcond.2]
    · intro hcond
      refine List.mem_map.mpr ⟨(path, cfgs), hmem, ?_⟩
      have hb : ((methodGroups cfgs).length = 1 && cfgs.length = 1) = false := by
        by_cases h1 : (methodGroups cfgs).length = 1
        · by_cases h2 : cfgs.length = 1
          · exact absurd ⟨h1, h2⟩ hcond
          · simp [h1, h2]
        · simp [h1]
      simp [hb]
  · intro cfgs m ss hmem
    have hl : lookupA m (methodGroups cfgs) = some ss :=
      mem_of_nodup_lookupA _ (nodup_keys_methodGroups cfgs) _ _ hmem
    exact ((methodGroups_head_spec cfgs m).1 ss hl).2
  · intro routes
    refine ⟨?_, nodup_keys_pathGroups routes⟩
    rw [generatePathBasedLocations, List.map_map]
    refine List.map_congr_left fun g hg => ?_
    by_cases hcond : ((methodGroups g.2).length = 1 && g.2.length = 1) = true
    · simp [Function.comp, hcond]
    · have hf : ((methodGroups g.2).length = 1 && g.2.length = 1) = false := by
        cases hcv : ((methodGroups g.2).length = 1 && g.2.length = 1)
        · rfl
        · exact absurd hcv hcond
      simp [Function.comp, hf]
  · intro routes path cfgs hmem c hc
    exact pathGroups_sound routes (path, cfgs) hmem c hc

/-- Witness for `c6_proxy_location_compilation` at the GET/POST `/api/x`
scenario: the grouped path resolves to a conditional block whose entries
pass to the first declaring service of each method. -/
theorem c6_proxy_location_compilation_witness :
    ("/api/x",
      [{ serviceName := "svc1", port := 3000, methods := ["GET"],
         paths := ["/api/x"] : RouteEntry },
       { serviceName := "svc2", port := 3001, methods := ["POST"],
         paths := ["/api/x"] : RouteEntry }]) ∈ pathGroups
        [{ serviceName := "svc1", port := 3000, methods := ["GET"],
           paths := ["/api/x"] },
         { serviceName := "svc2", port := 3001, methods := ["POST"],
           paths := ["/api/x"] }] ∧
    ("/api/x", LocBlock.conditional [("GET", "svc1"), ("POST", "svc2")])
      ∈ generatePathBasedLocations
        [{ serviceName := "svc1", port := 3000, methods := ["GET"],
           paths := ["/api/x"] },
         { serviceName := "svc2", port := 3001, methods := ["POST"],
           paths := ["/api/x"] }] ∧
    (∃ c, [{ serviceName := "svc1", port := 3000, methods := ["GET"],
             paths := ["/api/x"] : RouteEntry },
           { serviceName := "svc2", port := 3001, methods := ["POST"],
             paths := ["/api/x"] : RouteEntry }].find?
        (fun c' => decide ("POST" ∈ c'.methods)) = some c ∧
      ["svc2"].headD "" = c.serviceName) := by
  refine ⟨by decide, ?_, ?_⟩
  · have h := (c6_proxy_location_compilation.1
      [{ serviceName := "svc1", port := 3000, methods := ["GET"],
         paths := ["/api/x"] },
       { serviceName := "svc2", port := 3001, methods := ["POST"],
         paths := ["/api/x"] }]
      "/api/x"
      [{ serviceName := "svc1", port := 3000, methods := ["GET"],
         paths := ["/api/x"] },
       { serviceName := "svc2", port := 3001, methods := ["POST"],
         paths := ["/api/x"] }]
      (by decide)).2 (by decide)
    simpa using h
  · exact c6_proxy_location_compilation.2.1
      [{ serviceName := "svc1", port := 3000, methods := ["GET"],
         paths := ["/api/x"] },
       { serviceName := "svc2", port := 3001, methods := ["POST"],
         paths := ["/api/x"] }]
      "POST" ["svc2"] (by decide)

/-! ## Lemmas: the upward port scan -/

theorem filter_imp_length_le {α : Type} (P Q : α → Bool)
    (h : ∀ a, P a = true → Q a = true) :
    ∀ l : List α, (l.filter P).length ≤ (l.filter Q).length := by
  intro l
  induction l with
  | nil => exact Nat.le_refl 0
  | cons a t ih =>
    rw [List.filter_cons, List.filter_cons]
    by_cases hP : P a = true
    · rw [if_pos hP, if_pos (h a hP)]
      exact Nat.succ_le_succ ih
    · rw [if_neg hP]
      by_cases hQ : Q a = true
      · rw [if_pos hQ]
        exact Nat.le_trans ih (Nat.le_succ _)
      · rw [if_neg hQ]
        exact ih

theorem length_filter_ge_succ_lt (used : List Int) (p : Int)
    (hp : p ∈ used) :
    (used.filter (fun x => decide (p + 1 ≤ x))).length <
      (used.filter (fun x => decide (p ≤ x))).length := by
  induction used with
  | nil => cases hp
  | cons a t ih =>
    rw [List.filter_cons, List.filter_cons]
    by_cases ha : a = p
    · subst ha
      rw [if_neg (by simp), if_pos (by simp)]
      exact Nat.lt_succ_of_le
        (filter_imp_length_le _ _ (fun x hx => by
          simp only [decide_eq_true_eq] at hx ⊢; omega) t)
    · have hp' : p ∈ t := by
        rcases List.mem_cons.mp hp with h | h
        · exact absurd h.symm ha
        · exact h
      have hiff : (decide (p + 1 ≤ a)) = (decide (p ≤ a)) := by
        by_cases hle : p ≤ a
        · have : p + 1 ≤ a := by
            rcases lt_or_eq_of_le hle with h | h
            · omega
            · exact absurd h.symm ha
          simp [hle, this]
        · have : ¬ (p + 1 ≤ a) := by omega
          simp [hle, this]
      rw [hiff]
      by_cases hQ : decide (p ≤ a) = true
      · rw [if_pos hQ, if_pos hQ]
        exact Nat.succ_lt_succ (ih hp')
      · rw [if_neg hQ, if_neg hQ]
        exact ih hp'

theorem findFreeAux_spec (used : List Int) :
    ∀ (fuel : Nat) (p : Int),
      (used.filter (fun x => decide (p ≤ x))).length ≤ fuel →
      findFreeAux used fuel p ∉ used ∧ p ≤ findFreeAux used fuel p ∧
        ∀ q, p ≤ q → q < findFreeAux used fuel p → q ∈ used := by
  intro fuel
  induction fuel with
  | zero =>
    intro p hle
    rw [findFreeAux]
    have hnotmem : p ∉ used := by
      intro hp
      have hmem : p ∈ used.filter (fun x => decide (p ≤ x)) :=
        List.mem_filter.mpr ⟨hp, by simp⟩
      have hpos : 0 < (used.filter (fun x => decide (p ≤ x))).length :=
        List.length_pos.mpr (List.ne_nil_of_mem hmem)
      omega
    exact ⟨hnotmem, le_refl p,
      fun q h1 h2 => absurd (lt_of_le_of_lt h1 h2) (lt_irrefl p)⟩
  | succ fuel ih =>
    intro p hle
    rw [findFreeAux]
    by_cases hp : p ∈ used
    · rw [if_pos hp]
      have hlt := length_filter_ge_succ_lt used p hp
      have hle' : (used.filter (fun x => decide (p + 1 ≤ x))).length ≤ fuel :=
        by omega
      obtain ⟨h1, h2, h3⟩ := ih (p + 1) hle'
      refine ⟨h1, by omega, fun q hq1 hq2 => ?_⟩
      by_cases hqp : q = p
      · exact hqp ▸ hp
      · exact h3 q (by omega) hq2
    · rw [if_neg hp]
      exact ⟨hp, le_refl p,
        fun q h1 h2 => absurd (lt_of_le_of_lt h1 h2) (lt_irrefl p)⟩

/-- The upward scan finds exactly the first free port at or above `p`. -/
theorem findFree_spec (used : List Int) (p : Int) :
    findFree used p ∉ used ∧ p ≤ findFree used p ∧
      ∀ q, p ≤ q → q < findFree used p → q ∈ used := by
  rw [findFree]
  exact findFreeAux_spec used used.length p (List.length_filter_le _ _)

theorem mem_addUsed (u : List Int) (p x : Int) :
    x ∈ addUsed u p ↔ x ∈ u ∨ x = p := by
  rw [addUsed]
  by_cases hp : p ∈ u
  · rw [if_pos hp]
    exact ⟨Or.inl, fun h => h.elim id (fun hx => hx ▸ hp)⟩
  · rw [if_neg hp]
    simp

theorem recordManualPorts_mono (ps : List String) :
    ∀ (u : List Int) (x : Int), x ∈ u → x ∈ recordManualPorts u ps := by
  induction ps with
  | nil => intro u x hx; exact hx
  | cons port rest ih =>
    intro u x hx
    rw [recordManualPorts, List.foldl_cons]
    cases hparse : parseHostPort port with
    | some h =>
      exact ih (addUsed u h) x ((mem_addUsed u h x).mpr (Or.inl hx))
    | none =>
      exact ih u x hx

theorem mem_recordManualPorts (ps : List String) :
    ∀ (u : List Int) (port : String) (h : Int),
      port ∈ ps → parseHostPort port = some h →
      h ∈ recordManualPorts u ps := by
  induction ps with
  | nil => intro u port h hmem; cases hmem
  | cons p0 rest ih =>
    intro u port h hmem hparse
    rw [recordManualPorts, List.foldl_cons]
    rcases List.mem_cons.mp hmem with rfl | hmem'
    · rw [hparse]
      exact recordManualPorts_mono rest _ _ ((mem_addUsed u h h).mpr (Or.inr rfl))
    · cases hparse0 : parseHostPort p0 with
      | some h0 => exact ih (addUsed u h0) port h hmem' hparse
      | none => exact ih u port h hmem' hparse

/-! ## Claim C1 -/

/-- Claim C1: services compile in specification order with the assignment
cursor seeded at `portRangeStart` (3000 by default); explicit `ports` are
emitted verbatim with their parsed host sides recorded as used; a single
auto `port` receives the first host port at or above the cursor that is
not already used; after each service the cursor advances once and then
skips past used ports; and the two-auto-service round trip yields host
ports 3000 and 3001 in specification order.  (Stated for the data model of
the specification, in which no service disables auto-assignment via the
source-only `autoPort` flag.) -/
theorem c1_auto_host_port_assignment :
    (∀ spec : Spec, spec.portRange = none → startPort spec = 3000) ∧
    (∀ (cd : List (String × List String)) (name : String) (svc : Service)
        (rest : List (String × Service)) (used : List Int) (cursor : Int),
      svc.autoPort = none →
      compileServices cd ((name, svc) :: rest) used cursor
        = (name, (convertServiceToCompose svc cd used cursor).1) ::
            compileServices cd rest
              (convertServiceToCompose svc cd used cursor).2
              (findFree (convertServiceToCompose svc cd used cursor).2
                (cursor + 1))) ∧
    (∀ (svc : Service) (cd : List (String × List String)) (used : List Int)
        (cursor : Int) (p : Nat),
      svc.ports = none → svc.port = some p → p ≠ 0 →
      svc.autoPort ≠ some false →
      ∃ h : Int,
        h = findFree used cursor ∧
        (convertServiceToCompose svc cd used cursor).1.ports
          = some [toString h ++ ":" ++ toString p] ∧
        (convertServiceToCompose svc cd used cursor).2 = used ++ [h] ∧
        h ∉ used ∧ cursor ≤ h ∧ ∀ q, cursor ≤ q → q < h → q ∈ used) ∧
    (∀ (svc : Service) (cd : List (String × List String)) (used : List Int)
        (cursor : Int) (ps : List String),
      svc.ports = some ps →
      (convertServiceToCompose svc cd used cursor).1.ports = some ps ∧
      (convertServiceToCompose svc cd used cursor).2
        = recordManualPorts used ps ∧
      ∀ (port : String) (h : Int), port ∈ ps → parseHostPort port = some h →
        h ∈ (convertServiceToCompose svc cd used cursor).2) ∧
    ((generateComposeObject
      { services := [("a", { image := "ia", port := some 8080 }),
                     ("b", { image := "ib", port := some 9090 })] }
      false).services.map (fun e => (e.1, e.2.ports))
      = [("a", some ["3000:8080"]), ("b", some ["3001:9090"])]) := by
  refine ⟨?_, ?_, ?_, ?_, by decide⟩
  · intro spec h
    rw [startPort, h]
  · intro cd name svc rest used cursor hauto
    rw [compileServices]
    simp [hauto]
  · intro svc cd used cursor p hports hport hp0 hauto
    obtain ⟨hfree, hge, hmin⟩ := findFree_spec used cursor
    refine ⟨findFree used cursor, rfl, ?_, ?_, hfree, hge, hmin⟩
    · show convertServicePorts svc used cursor
        = some [toString (findFree used cursor) ++ ":" ++ toString p]
      rw [convertServicePorts, hports, hport]
      have htr : portTruthy (some p) = true := by
        rw [portTruthy]
        simpa using hp0
      have hbne2 : (svc.autoPort != some false) = true := bne_iff_ne.mpr hauto
      rw [htr, hbne2]
      simp
    · show convertServiceUsed svc used cursor = used ++ [findFree used cursor]
      rw [convertServiceUsed, hports]
      have htr : portTruthy svc.port = true := by
        rw [hport, portTruthy]
        simpa using hp0
      have hbne2 : (svc.autoPort != some false) = true := by
        rw [bne_iff_ne]
        exact hauto
      rw [htr, hbne2]
      simp only [Bool.and_self, if_true]
      rw [addUsed, if_neg hfree]
  · intro svc cd used cursor ps hports
    refine ⟨?_, ?_, ?_⟩
    · show convertServicePorts svc used cursor = some ps
      rw [convertServicePorts, hports]
    · show convertServiceUsed svc used cursor = recordManualPorts used ps
      rw [convertServiceUsed, hports]
    · intro port h hmem hparse
      show h ∈ convertServiceUsed svc used cursor
      rw [convertServiceUsed, hports]
      exact mem_recordManualPorts ps used port h hmem hparse

/-- Witness for `c1_auto_host_port_assignment`: with `3000` already pinned
by an earlier service, an auto-assigned `port: 8080` at cursor `3000`
receives host port `3001`. -/
theorem c1_auto_host_port_assignment_witness :
    ∃ h : Int,
      h = findFree [3000] 3000 ∧
      (convertServiceToCompose { image := "ia", port := some 8080 } []
        [3000] 3000).1.ports = some [toString h ++ ":" ++ toString 8080] ∧
      (convertServiceToCompose { image := "ia", port := some 8080 } []
        [3000] 3000).2 = [3000] ++ [h] ∧
      h ∉ [(3000 : Int)] ∧ (3000 : Int) ≤ h ∧
      ∀ q, (3000 : Int) ≤ q → q < h → q ∈ [(3000 : Int)] :=
  c1_auto_host_port_assignment.2.2.1
    { image := "ia", port := some 8080 } [] [3000] 3000 8080
    rfl rfl (by decide) (by decide)

/-! ## Lemmas: the test-container wait loop -/

theorem waitLoop_timeout (tracked : List String) :
    ∀ polls : List (Option String),
      (∀ poll ∈ polls, ∀ s, poll = some s →
        pollResolves tracked s = false) →
      waitLoop tracked polls = .timedOut := by
  intro polls
  induction polls with
  | nil => intro _; rfl
  | cons poll rest ih =>
    intro h
    cases poll with
    | none =>
      rw [waitLoop]
      exact ih (fun q hq s hs => h q (List.mem_cons_of_mem _ hq) s hs)
    | some s =>
      rw [waitLoop]
      rw [h (some s) (List.mem_cons_self _ _) s rfl]
      exact ih (fun q hq s' hs' => h q (List.mem_cons_of_mem _ hq) s' hs')

theorem waitLoop_cons_none (tracked : List String)
    (l : List (Option String)) :
    waitLoop tracked (none :: l) = waitLoop tracked l := rfl

theorem waitLoop_cons_some (tracked : List String) (s : String)
    (l : List (Option String)) :
    waitLoop tracked (some s :: l)
      = if pollResolves tracked s then
          if (pollFailures tracked s).isEmpty then .completedOk
          else .completedFailed (pollFailures tracked s)
        else waitLoop tracked l := rfl

theorem waitLoop_first_resolve (tracked : List String) :
    ∀ (pre : List (Option String)) (stdout : String)
      (rest : List (Option String)),
      (∀ q ∈ pre, ∀ s, q = some s → pollResolves tracked s = false) →
      pollResolves tracked stdout = true →
      waitLoop tracked (pre ++ some stdout :: rest)
        = if (pollFailures tracked stdout).isEmpty then .completedOk
          else .completedFailed (pollFailures tracked stdout) := by
  intro pre
  induction pre with
  | nil =>
    intro stdout rest _ hres
    rw [List.nil_append, waitLoop_cons_some, hres]
    simp
  | cons q pre' ih =>
    intro stdout rest hpre hres
    rw [List.cons_append]
    cases q with
    | none =>
      rw [waitLoop_cons_none]
      exact ih stdout rest
        (fun q' hq' s hs => hpre q' (List.mem_cons_of_mem _ hq') s hs) hres
    | some s =>
      rw [waitLoop_cons_some, hpre (some s) (List.mem_cons_self _ _) s rfl]
      simp only [Bool.false_eq_true, if_false]
      exact ih stdout rest
        (fun q' hq' s' hs' => hpre q' (List.mem_cons_of_mem _ hq') s' hs') hres

/-! ## Claim C8 -/

/-- Claim C8: for a non-empty tracked-service list, the wait times out
when no poll within the limit resolves; the first resolving poll (every
tracked service found, all parsed statuses terminal, one per service)
decides the outcome: failure listing exactly the services with nonzero
exit codes when any exist, success otherwise; a failed status invocation
is still-pending.  One service polled `Up` then `Exited (0)` succeeds
after exactly two polls, and `Exited (1)` on the second poll fails naming
the service with exit code 1. -/
theorem c8_wait_result :
    (∀ (tracked : List String) (polls : List (Option String)),
      tracked ≠ [] →
      (∀ poll ∈ polls, ∀ s, poll = some s →
        pollResolves tracked s = false) →
      waitForTestContainers tracked polls = .timedOut) ∧
    (∀ (tracked : List String) (pre : List (Option String))
        (stdout : String) (rest : List (Option String)),
      tracked ≠ [] →
      (∀ q ∈ pre, ∀ s, q = some s → pollResolves tracked s = false) →
      pollResolves tracked stdout = true →
      waitForTestContainers tracked (pre ++ some stdout :: rest)
        = if (pollFailures tracked stdout).isEmpty then .completedOk
          else .completedFailed (pollFailures tracked stdout)) ∧
    (∀ (tracked : List String) (stdout : String),
      (pollFailures tracked stdout).isEmpty = true ↔
        ∀ c ∈ pollStatuses tracked stdout, c.exitCode = 0) ∧
    (∀ (tracked : List String) (stdout : String) (p : String × Int),
      p ∈ pollFailures tracked stdout → p.2 ≠ 0) ∧
    (waitForTestContainers ["keeper"]
        [some "proj_keeper_1  Up 2 seconds",
         some "proj_keeper_1  Exited (0) 1 second ago"] = .completedOk ∧
      waitForTestContainers ["keeper"] [some "proj_keeper_1  Up 2 seconds"]
        = .timedOut) ∧
    (waitForTestContainers ["keeper"]
        [some "proj_keeper_1  Up 2 seconds",
         some "proj_keeper_1  Exited (1) 1 second ago"]
        = .completedFailed [("keeper", 1)]) := by
  refine ⟨?_, ?_, ?_, ?_, ⟨by decide, by decide⟩, by decide⟩
  · intro tracked polls hne h
    rw [waitForTestContainers, if_neg (by simpa using hne)]
    exact waitLoop_timeout tracked polls h
  · intro tracked pre stdout rest hne hpre hres
    rw [waitForTestContainers, if_neg (by simpa using hne)]
    exact waitLoop_first_resolve tracked pre stdout rest hpre hres
  · intro tracked stdout
    rw [pollFailures, List.isEmpty_iff, List.map_eq_nil_iff,
      List.filter_eq_nil_iff]
    constructor
    · intro h c hc
      by_contra hcc
      exact (h c hc) (by simpa using hcc)
    · intro h c hc
      simp [h c hc]
  · intro tracked stdout p hp
    rw [pollFailures] at hp
    obtain ⟨c, hc, hcp⟩ := List.mem_map.mp hp
    have hpred := List.of_mem_filter hc
    subst hcp
    simpa using hpred

/-- Witness for `c8_wait_result`: the two-poll Up / Exited (0) run resolves
through the first-resolving-poll characterization. -/
theorem c8_wait_result_witness :
    waitForTestContainers ["keeper"]
        ([some "proj_keeper_1  Up 2 seconds"] ++
          some "proj_keeper_1  Exited (0) 1 second ago" :: [])
      = if (pollFailures ["keeper"]
            "proj_keeper_1  Exited (0) 1 second ago").isEmpty
        then .completedOk
        else .completedFailed (pollFailures ["keeper"]
          "proj_keeper_1  Exited (0) 1 second ago") :=
  c8_wait_result.2.1 ["keeper"] [some "proj_keeper_1  Up 2 seconds"]
    "proj_keeper_1  Exited (0) 1 second ago" []
    (by decide) (by decide) (by decide)

/-! ## Claim C10 -/

/-- Claim C10: a tracked status line recognized as exited (it contains
`Exited` or `exited`) whose text has no parsable `Exited (n)` pattern is
assigned exit code 0, so it counts toward success; a nonzero recorded exit
code can only come from a successful `Exited (n)` match, so a malformed or
lower-cased exit status can never make the wait report failure — polled as
`exited (1)`, the wait still resolves with overall success. -/
theorem c10_malformed_exit_status :
    (∀ (line : List Char) (svc : String) (st : ContainerStatus),
      statusOfLine line svc = some st →
      (exitedCodeMatch st.status = none → st.exitCode = 0) ∧
      (st.exitCode ≠ 0 →
        ∃ n : Nat, exitedCodeMatch st.status = some n ∧
          st.exitCode = Int.ofNat n ∧ st.exited = true)) ∧
    (waitForTestContainers ["svc"] [some "app_svc_1  exited (1)"]
      = .completedOk) ∧
    (statusOfLine "app_svc_1  exited (1)".toList "svc"
      = some { service := "svc", status := "exited (1)", exitCode := 0,
               exited := true }) := by
  refine ⟨?_, by decide, by decide⟩
  intro line svc st h
  rw [statusOfLine] at h
  by_cases hcontains : (!infixB svc.toList line) = true
  · rw [if_pos hcontains] at h
    cases h
  · rw [if_neg hcontains] at h
    dsimp only at h
    set S := (match (splitRuns Char.isWhitespace line).findIdx?
        (fun part => infixB svc.toList part) with
      | some i =>
        if i < (splitRuns Char.isWhitespace line).length - 1 then
          List.intercalate [' ']
            ((splitRuns Char.isWhitespace line).drop (i + 1))
        else (splitRuns Char.isWhitespace line).getLastD []
      | none => (splitRuns Char.isWhitespace line).getLastD []) with hS
    by_cases hex :
        (infixB "Exited".toList S || infixB "exited".toList S) = true
    · rw [if_pos hex] at h
      cases h
      have hmatch : exitedCodeMatch S.asString = exitedCodeSearch S := by
        rw [exitedCodeMatch, List.toList_asString]
      constructor
      · intro hnone
        rw [hmatch] at hnone
        show Int.ofNat ((exitedCodeSearch S).getD 0) = 0
        rw [hnone]
        rfl
      · intro hnz
        cases hsearch : exitedCodeSearch S with
        | none =>
          refine absurd ?_ hnz
          show Int.ofNat ((exitedCodeSearch S).getD 0) = 0
          rw [hsearch]
          rfl
        | some n =>
          exact ⟨n, by rw [hmatch, hsearch], rfl, rfl⟩
    · rw [if_neg hex] at h
      cases h
      exact ⟨fun _ => rfl, fun hnz => absurd rfl hnz⟩

/-- Witness for `c10_malformed_exit_status` at the lower-cased status line
`exited (1)`: the parse yields exit code 0. -/
theorem c10_malformed_exit_status_witness :
    exitedCodeMatch "exited (1)" = none ∧
    ∃ st : ContainerStatus,
      statusOfLine "app_svc_1  exited (1)".toList "svc" = some st ∧
      st.exited = true ∧ st.exitCode = 0 := by
  refine ⟨by decide,
    ⟨{ service := "svc", status := "exited (1)", exitCode := 0,
       exited := true }, by decide, rfl, ?_⟩⟩
  exact (c10_malformed_exit_status.1 "app_svc_1  exited (1)".toList "svc"
    { service := "svc", status := "exited (1)", exitCode := 0, exited := true }
    (by decide)).1 (by decide)

/-! ## Lemmas: the dependency-validation traversal

The JS recursion of `hasCycle` terminates because the shared visited set
grows; the embedding bounds the recursion depth by fuel instead.  The fuel
`validateDependencies` passes is proved sufficient here: each recursive
descent pushes a fresh key onto the recursion stack, so the number of keys
not yet on the stack strictly decreases. -/

/-- Number of service keys not on the recursion stack (the fuel measure). -/
def cntNew (g : List (String × Service)) (stack : List String) : Nat :=
  ((keysOf g).filter (fun k => decide (k ∉ stack))).length

theorem cnt_push_lt (g : List (String × Service)) (stack : List String)
    (n : String) (hk : n ∈ keysOf g) (hs : n ∉ stack) :
    cntNew g (n :: stack) < cntNew g stack := by
  rw [cntNew, cntNew]
  revert hk
  generalize keysOf g = ks
  intro hk
  induction ks with
  | nil => cases hk
  | cons a t ih =>
    rw [List.filter_cons, List.filter_cons]
    by_cases ha : a = n
    · subst ha
      rw [if_neg (by simp), if_pos (by simpa using hs)]
      refine Nat.lt_succ_of_le
        (filter_imp_length_le _ _ (fun k hcond => ?_) t)
      simp only [decide_eq_true_eq] at hcond ⊢
      intro hmem
      exact hcond (List.mem_cons_of_mem _ hmem)
    · have hn' : n ∈ t := by
        rcases List.mem_cons.mp hk with h | h
        · exact absurd h.symm ha
        · exact h
      have hiff : (decide (a ∉ n :: stack)) = (decide (a ∉ stack)) := by
        by_cases hmem : a ∈ stack
        · simp [hmem]
        · simp [hmem, ha]
      rw [hiff]
      by_cases hq : (decide (a ∉ stack)) = true
      · rw [if_pos hq, if_pos hq]
        exact Nat.succ_lt_succ (ih hn')
      · rw [if_neg hq, if_neg hq]
        exact ih hn'

theorem cnt_le_length (g : List (String × Service)) (stack : List String) :
    cntNew g stack ≤ g.length := by
  rw [cntNew]
  calc ((keysOf g).filter _).length ≤ (keysOf g).length :=
        List.length_filter_le _ _
    _ = g.length := by rw [keysOf, List.length_map]

theorem depsOf_of_lookup_none (g : List (String × Service)) (n : String)
    (h : lookupA n g = none) : depsOf g n = [] := by
  rw [depsOf, h]

theorem lookup_some_mem_keys (g : List (String × Service)) (n : String)
    (svc : Service) (h : lookupA n g = some svc) : n ∈ keysOf g := by
  by_contra hmem
  rw [keysOf] at hmem
  rw [← lookupA_eq_none_iff g n] at hmem
  rw [h] at hmem
  cases hmem

theorem edge_source_mem_keys (g : List (String × Service)) (x y : String)
    (h : Edge g x y) : x ∈ keysOf g := by
  rw [Edge, depsOf] at h
  cases hl : lookupA x g with
  | none =>
    rw [hl] at h
    cases h
  | some svc => exact lookup_some_mem_keys g x svc hl

theorem goDeps_ne_outOfFuel (g : List (String × Service)) (fuel : Nat)
    (hvisit : ∀ v s n, cntNew g s < fuel →
      visitNode g fuel v s n ≠ .error .outOfFuel) :
    ∀ (deps : List String) (v s : List String) (name : String),
      cntNew g s < fuel →
      goDeps (visitNode g fuel) g v s name deps ≠ .error .outOfFuel := by
  intro deps
  induction deps with
  | nil =>
    intro v s name _ h
    cases h
  | cons d ds ih =>
    intro v s name hcnt
    rw [goDeps]
    by_cases hmiss : (lookupA d g).isNone = true
    · rw [if_pos hmiss]
      intro h
      cases h
    · rw [if_neg hmiss]
      cases hvn : visitNode g fuel v s d with
      | error e =>
        intro h
        cases h
        exact hvisit v s d hcnt hvn
      | ok pr =>
        obtain ⟨flag, v'⟩ := pr
        cases flag
        · exact ih v' s name hcnt
        · intro h
          cases h

theorem visitNode_ne_outOfFuel (g : List (String × Service)) :
    ∀ (fuel : Nat) (v s : List String) (n : String),
      cntNew g s < fuel →
      visitNode g fuel v s n ≠ .error .outOfFuel := by
  intro fuel
  induction fuel with
  | zero =>
    intro v s n hcnt
    exact absurd hcnt (Nat.not_lt_zero _)
  | succ fuel ih =>
    intro v s n hcnt
    rw [visitNode]
    by_cases h1 : n ∈ s
    · rw [if_pos h1]
      intro h
      cases h
    · rw [if_neg h1]
      by_cases h2 : n ∈ v
      · rw [if_pos h2]
        intro h
        cases h
      · rw [if_neg h2]
        by_cases hk : n ∈ keysOf g
        · have hcnt' : cntNew g (n :: s) < fuel := by
            have := cnt_push_lt g s n hk h1
            omega
          cases hgo : goDeps (visitNode g fuel) g (n :: v) (n :: s) n
              (depsOf g n) with
          | error e =>
            intro h
            cases h
            exact goDeps_ne_outOfFuel g fuel
              (fun v' s' n' hc => ih v' s' n' hc)
              (depsOf g n) (n :: v) (n :: s) n hcnt' hgo
          | ok v' =>
            intro h
            cases h
        · have hdeps : depsOf g n = [] :=
            depsOf_of_lookup_none g n ((lookupA_eq_none_iff g n).mpr hk)
          rw [hdeps]
          rw [goDeps]
          intro h
          cases h

theorem validateLoop_ne_outOfFuel (g : List (String × Service)) :
    ∀ (names : List String) (visited : List String),
      validateLoop g names visited ≠ .error .outOfFuel := by
  intro names
  induction names with
  | nil =>
    intro visited h
    cases h
  | cons n rest ih =>
    intro visited
    rw [validateLoop]
    by_cases hv : n ∈ visited
    · rw [if_pos hv]
      exact ih visited
    · rw [if_neg hv]
      have hcnt : cntNew g [] < g.length + 1 :=
        Nat.lt_succ_of_le (cnt_le_length g [])
      cases hvn : visitNode g (g.length + 1) visited [] n with
      | error e =>
        intro h
        cases h
        exact visitNode_ne_outOfFuel g (g.length + 1) visited [] n hcnt hvn
      | ok pr =>
        obtain ⟨flag, v'⟩ := pr
        exact ih v'

theorem goDeps_dangling (g : List (String × Service)) (fuel : Nat)
    (hvisit : ∀ v s n x d, visitNode g fuel v s n = .error (.dangling x d) →
      lookupA d g = none ∧ d ∈ depsOf g x) :
    ∀ (deps : List String) (v s : List String) (name : String)
      (x d : String),
      (∀ d' ∈ deps, d' ∈ depsOf g name) →
      goDeps (visitNode g fuel) g v s name deps = .error (.dangling x d) →
      lookupA d g = none ∧ d ∈ depsOf g x := by
  intro deps
  induction deps with
  | nil =>
    intro v s name x d _ h
    cases h
  | cons d0 ds ih =>
    intro v s name x d hsub h
    rw [goDeps] at h
    by_cases hmiss : (lookupA d0 g).isNone = true
    · rw [if_pos hmiss] at h
      cases h
      exact ⟨Option.isNone_iff_eq_none.mp hmiss,
        hsub d0 (List.mem_cons_self _ _)⟩
    · rw [if_neg hmiss] at h
      cases hvn : visitNode g fuel v s d0 with
      | error e =>
        rw [hvn] at h
        cases h
        exact hvisit v s d0 x d hvn
      | ok pr =>
        obtain ⟨flag, v'⟩ := pr
        rw [hvn] at h
        cases flag
        · exact ih v' s name x d
            (fun d' hd' => hsub d' (List.mem_cons_of_mem _ hd')) h
        · cases h

theorem visitNode_dangling (g : List (String × Service)) :
    ∀ (fuel : Nat) (v s : List String) (n x d : String),
      visitNode g fuel v s n = .error (.dangling x d) →
      lookupA d g = none ∧ d ∈ depsOf g x := by
  intro fuel
  induction fuel with
  | zero =>
    intro v s n x d h
    cases h
  | succ fuel ih =>
    intro v s n x d h
    rw [visitNode] at h
    by_cases h1 : n ∈ s
    · rw [if_pos h1] at h
      cases h
    · rw [if_neg h1] at h
      by_cases h2 : n ∈ v
      · rw [if_pos h2] at h
        cases h
      · rw [if_neg h2] at h
        cases hgo : goDeps (visitNode g fuel) g (n :: v) (n :: s) n
            (depsOf g n) with
        | error e =>
          rw [hgo] at h
          cases h
          exact goDeps_dangling g fuel
            (fun v' s' n' x' d' => ih v' s' n' x' d')
            (depsOf g n) (n :: v) (n :: s) n x d (fun _ hd => hd) hgo
        | ok v' =>
          rw [hgo] at h
          cases h

theorem validateLoop_dangling (g : List (String × Service)) :
    ∀ (names visited : List String) (x d : String),
      validateLoop g names visited = .error (.dangling x d) →
      lookupA d g = none ∧ d ∈ depsOf g x := by
  intro names
  induction names with
  | nil =>
    intro visited x d h
    cases h
  | cons n rest ih =>
    intro visited x d h
    rw [validateLoop] at h
    by_cases hv : n ∈ visited
    · rw [if_pos hv] at h
      exact ih visited x d h
    · rw [if_neg hv] at h
      cases hvn : visitNode g (g.length + 1) visited [] n with
      | error e =>
        rw [hvn] at h
        cases h
        exact visitNode_dangling g (g.length + 1) visited [] n x d hvn
      | ok pr =>
        obtain ⟨flag, v'⟩ := pr
        rw [hvn] at h
        exact ih v' x d h

theorem visitNode_true_mem (g : List (String × Service)) (fuel : Nat)
    (v s : List String) (n : String) (v' : List String)
    (h : visitNode g fuel v s n = .ok (true, v')) : n ∈ s := by
  cases fuel with
  | zero => cases h
  | succ fuel =>
    rw [visitNode] at h
    by_cases h1 : n ∈ s
    · exact h1
    · rw [if_neg h1] at h
      by_cases h2 : n ∈ v
      · rw [if_pos h2] at h
        cases h
      · rw [if_neg h2] at h
        cases hgo : goDeps (visitNode g fuel) g (n :: v) (n :: s) n
            (depsOf g n) with
        | error e =>
          rw [hgo] at h
          cases h
        | ok v'' =>
          rw [hgo] at h
          cases h

/-- The recursion stack is a path in the dependency graph: each entry has
an edge to the entry pushed on top of it. -/
def ChainStack (g : List (String × Service)) (stack : List String) : Prop :=
  List.Chain' (fun a b => Edge g b a) stack

theorem chain_reach (g : List (String × Service)) :
    ∀ (t : List String) (h y : String), ChainStack g (h :: t) →
      y ∈ h :: t → Relation.ReflTransGen (Edge g) y h := by
  intro t
  induction t with
  | nil =>
    intro h y _ hy
    rcases List.mem_singleton.mp hy with rfl
    exact Relation.ReflTransGen.refl
  | cons h2 t ih =>
    intro h y hchain hy
    have hedge : Edge g h2 h := (List.chain'_cons.mp hchain).1
    have hchain2 : ChainStack g (h2 :: t) := (List.chain'_cons.mp hchain).2
    rcases List.mem_cons.mp hy with rfl | hy'
    · exact Relation.ReflTransGen.refl
    · exact Relation.ReflTransGen.tail (ih h2 y hchain2 hy') hedge

theorem goDeps_circular (g : List (String × Service)) (fuel : Nat)
    (hvisit : ∀ v s n c, ChainStack g s →
      (s = [] ∨ ∃ h t, s = h :: t ∧ Edge g h n) →
      visitNode g fuel v s n = .error (.circular c) →
      Relation.TransGen (Edge g) c c) :
    ∀ (deps : List String) (v : List String) (t : List String)
      (name : String) (c : String),
      ChainStack g (name :: t) →
      (∀ d' ∈ deps, Edge g name d') →
      goDeps (visitNode g fuel) g v (name :: t) name deps
        = .error (.circular c) →
      Relation.TransGen (Edge g) c c := by
  intro deps
  induction deps with
  | nil =>
    intro v t name c _ _ h
    cases h
  | cons d0 ds ih =>
    intro v t name c hchain hedges h
    rw [goDeps] at h
    by_cases hmiss : (lookupA d0 g).isNone = true
    · rw [if_pos hmiss] at h
      cases h
    · rw [if_neg hmiss] at h
      cases hvn : visitNode g fuel v (name :: t) d0 with
      | error e =>
        rw [hvn] at h
        cases h
        exact hvisit v (name :: t) d0 c hchain
          (Or.inr ⟨name, t, rfl, hedges d0 (List.mem_cons_self _ _)⟩) hvn
      | ok pr =>
        obtain ⟨flag, v'⟩ := pr
        rw [hvn] at h
        cases flag
        · exact ih v' t name c hchain
            (fun d' hd' => hedges d' (List.mem_cons_of_mem _ hd')) h
        · cases h
          have hmem : d0 ∈ name :: t :=
            visitNode_true_mem g fuel v (name :: t) d0 v' hvn
          have hreach : Relation.ReflTransGen (Edge g) d0 name :=
            chain_reach g t name d0 hchain hmem
          exact Relation.TransGen.head'
            (hedges d0 (List.mem_cons_self _ _)) hreach

theorem visitNode_circular (g : List (String × Service)) :
    ∀ (fuel : Nat) (v s : List String) (n c : String),
      ChainStack g s →
      (s = [] ∨ ∃ h t, s = h :: t ∧ Edge g h n) →
      visitNode g fuel v s n = .error (.circular c) →
      Relation.TransGen (Edge g) c c := by
  intro fuel
  induction fuel with
  | zero =>
    intro v s n c _ _ h
    cases h
  | succ fuel ih =>
    intro v s n c hchain hhead h
    rw [visitNode] at h
    by_cases h1 : n ∈ s
    · rw [if_pos h1] at h
      cases h
    · rw [if_neg h1] at h
      by_cases h2 : n ∈ v
      · rw [if_pos h2] at h
        cases h
      · rw [if_neg h2] at h
        have hchain' : ChainStack g (n :: s) := by
          rcases hhead with rfl | ⟨hh, t, rfl, hedge⟩
          · exact List.chain'_singleton n
          · exact List.chain'_cons.mpr ⟨hedge, hchain⟩
        cases hgo : goDeps (visitNode g fuel) g (n :: v) (n :: s) n
            (depsOf g n) with
        | error e =>
          rw [hgo] at h
          cases h
          exact goDeps_circular g fuel
            (fun v' s' n' c' => ih v' s' n' c')
            (depsOf g n) (n :: v) s n c hchain'
            (fun d' hd' => hd') hgo
        | ok v' =>
          rw [hgo] at h
          cases h

theorem validateLoop_circular (g : List (String × Service)) :
    ∀ (names visited : List String) (c : String),
      validateLoop g names visited = .error (.circular c) →
      Relation.TransGen (Edge g) c c := by
  intro names
  induction names with
  | nil =>
    intro visited c h
    cases h
  | cons n rest ih =>
    intro visited c h
    rw [validateLoop] at h
    by_cases hv : n ∈ visited
    · rw [if_pos hv] at h
      exact ih visited c h
    · rw [if_neg hv] at h
      cases hvn : visitNode g (g.length + 1) visited [] n with
      | error e =>
        rw [hvn] at h
        cases h
        exact visitNode_circular g (g.length + 1) visited [] n c
          List.chain'_nil (Or.inl rfl) hvn
      | ok pr =>
        obtain ⟨flag, v'⟩ := pr
        rw [hvn] at h
        exact ih v' c h

/-- The set of fully-explored (visited, off-stack) services is closed
under reachability. -/
def Rclosed (g : List (String × Service)) (v s : List String) : Prop :=
  ∀ x, x ∈ v → x ∉ s → ∀ y, Relation.ReflTransGen (Edge g) x y →
    y ∈ v ∧ y ∉ s

/-- No cycle passes through a fully-explored service. -/
def Acyc (g : List (String × Service)) (v s : List String) : Prop :=
  ∀ x, x ∈ v → x ∉ s → ¬ Relation.TransGen (Edge g) x x

theorem goDeps_inv (g : List (String × Service)) (fuel : Nat)
    (hvisit : ∀ v s n flag v',
      visitNode g fuel v s n = .ok (flag, v') →
      s ⊆ v → Rclosed g v s → Acyc g v s →
      v ⊆ v' ∧ s ⊆ v' ∧ Rclosed g v' s ∧ Acyc g v' s ∧ n ∈ v' ∧
        (flag = false → n ∉ s)) :
    ∀ (deps : List String) (v s : List String) (name : String)
      (v'' : List String),
      goDeps (visitNode g fuel) g v s name deps = .ok v'' →
      s ⊆ v → Rclosed g v s → Acyc g v s →
      v ⊆ v'' ∧ s ⊆ v'' ∧ Rclosed g v'' s ∧ Acyc g v'' s ∧
        ∀ d ∈ deps, d ∈ v'' ∧ d ∉ s := by
  intro deps
  induction deps with
  | nil =>
    intro v s name v'' h hsv hR hA
    cases h
    exact ⟨fun _ hx => hx, hsv, hR, hA, fun d hd => absurd hd (by simp)⟩
  | cons d0 ds ih =>
    intro v s name v'' h hsv hR hA
    rw [goDeps] at h
    by_cases hmiss : (lookupA d0 g).isNone = true
    · rw [if_pos hmiss] at h
      cases h
    · rw [if_neg hmiss] at h
      cases hvn : visitNode g fuel v s d0 with
      | error e =>
        rw [hvn] at h
        cases h
      | ok pr =>
        obtain ⟨flag, v₁⟩ := pr
        rw [hvn] at h
        cases flag
        · obtain ⟨hvv₁, hsv₁, hR₁, hA₁, hd₁, hflag⟩ :=
            hvisit v s d0 false v₁ hvn hsv hR hA
          obtain ⟨hv₁v'', hsv'', hR'', hA'', hds⟩ :=
            ih v₁ s name v'' h hsv₁ hR₁ hA₁
          refine ⟨fun x hx => hv₁v'' (hvv₁ hx), hsv'', hR'', hA'', ?_⟩
          intro d hd
          rcases List.mem_cons.mp hd with rfl | hd'
          · exact ⟨hv₁v'' hd₁, hflag rfl⟩
          · exact hds d hd'
        · cases h

theorem visitNode_inv (g : List (String × Service)) :
    ∀ (fuel : Nat) (v s : List String) (n : String) (flag : Bool)
      (v' : List String),
      visitNode g fuel v s n = .ok (flag, v') →
      s ⊆ v → Rclosed g v s → Acyc g v s →
      v ⊆ v' ∧ s ⊆ v' ∧ Rclosed g v' s ∧ Acyc g v' s ∧ n ∈ v' ∧
        (flag = false → n ∉ s) := by
  intro fuel
  induction fuel with
  | zero =>
    intro v s n flag v' h
    cases h
  | succ fuel ih =>
    intro v s n flag v' h hsv hR hA
    rw [visitNode] at h
    by_cases h1 : n ∈ s
    · rw [if_pos h1] at h
      cases h
      exact ⟨fun _ hx => hx, hsv, hR, hA, hsv h1,
        fun hfl => absurd hfl (by simp)⟩
    · rw [if_neg h1] at h
      by_cases h2 : n ∈ v
      · rw [if_pos h2] at h
        cases h
        exact ⟨fun _ hx => hx, hsv, hR, hA, h2, fun _ => h1⟩
      · rw [if_neg h2] at h
        cases hgo : goDeps (visitNode g fuel) g (n :: v) (n :: s) n
            (depsOf g n) with
        | error e =>
          rw [hgo] at h
          cases h
        | ok vg =>
          rw [hgo] at h
          cases h
          have hsv' : (n :: s) ⊆ (n :: v) := by
            intro x hx
            rcases List.mem_cons.mp hx with rfl | hx'
            · exact List.mem_cons_self _ _
            · exact List.mem_cons_of_mem _ (hsv hx')
          have hblack : ∀ x, x ∈ n :: v → x ∉ n :: s →
              x ∈ v ∧ x ∉ s ∧ x ≠ n := by
            intro x hxv hxs
            have hxn : x ≠ n := fun hx =>
              hxs (hx ▸ List.mem_cons_self _ _)
            have hxv' : x ∈ v := by
              rcases List.mem_cons.mp hxv with h' | h'
              · exact absurd h' hxn
              · exact h'
            exact ⟨hxv', fun hx => hxs (List.mem_cons_of_mem _ hx), hxn⟩
          have hR' : Rclosed g (n :: v) (n :: s) := by
            intro x hxv hxs y hy
            obtain ⟨hxv', hxs', _⟩ := hblack x hxv hxs
            obtain ⟨hyv, hys⟩ := hR x hxv' hxs' y hy
            refine ⟨List.mem_cons_of_mem _ hyv, ?_⟩
            intro hmem
            rcases List.mem_cons.mp hmem with rfl | h'
            · exact h2 hyv
            · exact hys h'
          have hA' : Acyc g (n :: v) (n :: s) := by
            intro x hxv hxs
            obtain ⟨hxv', hxs', _⟩ := hblack x hxv hxs
            exact hA x hxv' hxs'
          obtain ⟨hnv_keep, hns_keep, hRmid, hAmid, hds⟩ :=
            goDeps_inv g fuel
              (fun v0 s0 n0 flag0 v0' => ih v0 s0 n0 flag0 v0')
              (depsOf g n) (n :: v) (n :: s) n v' hgo hsv' hR' hA'
          have hnvmid : n ∈ v' := hnv_keep (List.mem_cons_self _ _)
          have hRfin : Rclosed g v' s := by
            intro x hxv hxs y hy
            by_cases hxn : x = n
            · subst hxn
              rcases Relation.ReflTransGen.cases_head hy with rfl | ⟨z, hz, hzy⟩
              · exact ⟨hnvmid, h1⟩
              · obtain ⟨hzv, hzs⟩ := hds z hz
                obtain ⟨hyv, hys⟩ := hRmid z hzv hzs y hzy
                exact ⟨hyv, fun hmem =>
                  hys (List.mem_cons_of_mem _ hmem)⟩
            · have hxs' : x ∉ n :: s := by
                intro hmem
                rcases List.mem_cons.mp hmem with h' | h'
                · exact hxn h'
                · exact hxs h'
              obtain ⟨hyv, hys⟩ := hRmid x hxv hxs' y hy
              exact ⟨hyv, fun hmem =>
                hys (List.mem_cons_of_mem _ hmem)⟩
          have hAfin : Acyc g v' s := by
            intro x hxv hxs hcyc
            by_cases hxn : x = n
            · subst hxn
              obtain ⟨z, hz, hzy⟩ := Relation.TransGen.head'_iff.mp hcyc
              obtain ⟨hzv, hzs⟩ := hds z hz
              obtain ⟨hyv, hys⟩ := hRmid z hzv hzs x hzy
              exact hys (List.mem_cons_self _ _)
            · have hxs' : x ∉ n :: s := by
                intro hmem
                rcases List.mem_cons.mp hmem with h' | h'
                · exact hxn h'
                · exact hxs h'
              exact hAmid x hxv hxs' hcyc
          exact ⟨fun x hx => hnv_keep (List.mem_cons_of_mem _ hx),
            fun x hx => hns_keep (List.mem_cons_of_mem _ hx),
            hRfin, hAfin, hnvmid, fun _ => h1⟩

theorem validateLoop_acyc (g : List (String × Service)) :
    ∀ (names visited : List String),
      Rclosed g visited [] → Acyc g visited [] →
      validateLoop g names visited = .ok () →
      ∀ n ∈ names, ¬ Relation.TransGen (Edge g) n n := by
  intro names
  induction names with
  | nil =>
    intro visited _ _ _ n hn
    cases hn
  | cons n0 rest ih =>
    intro visited hR hA h n hn
    rw [validateLoop] at h
    by_cases hv : n0 ∈ visited
    · rw [if_pos hv] at h
      rcases List.mem_cons.mp hn with rfl | hn'
      · exact hA n hv (by simp)
      · exact ih visited hR hA h n hn'
    · rw [if_neg hv] at h
      cases hvn : visitNode g (g.length + 1) visited [] n0 with
      | error e =>
        rw [hvn] at h
        cases h
      | ok pr =>
        obtain ⟨flag, v'⟩ := pr
        rw [hvn] at h
        obtain ⟨hvv', _, hR', hA', hn0v', _⟩ :=
          visitNode_inv g (g.length + 1) visited [] n0 flag v' hvn
            (by intro x hx; cases hx) hR hA
        rcases List.mem_cons.mp hn with rfl | hn'
        · exact hA' n hn0v' (by simp)
        · exact ih v' hR' hA' h n hn'

/-- Every fully-explored service has all its dependencies declared. -/
def DepsOk (g : List (String × Service)) (v s : List String) : Prop :=
  ∀ x, x ∈ v → x ∉ s → ∀ d ∈ depsOf g x, d ∈ keysOf g

theorem goDeps_depsok (g : List (String × Service)) (fuel : Nat)
    (hvisit : ∀ v s n flag v',
      visitNode g fuel v s n = .ok (flag, v') →
      s ⊆ v → DepsOk g v s →
      v ⊆ v' ∧ s ⊆ v' ∧ DepsOk g v' s ∧ n ∈ v') :
    ∀ (deps : List String) (v s : List String) (name : String)
      (v'' : List String),
      goDeps (visitNode g fuel) g v s name deps = .ok v'' →
      s ⊆ v → DepsOk g v s →
      v ⊆ v'' ∧ s ⊆ v'' ∧ DepsOk g v'' s ∧ ∀ d ∈ deps, d ∈ keysOf g := by
  intro deps
  induction deps with
  | nil =>
    intro v s name v'' h hsv hD
    cases h
    exact ⟨fun _ hx => hx, hsv, hD, fun d hd => absurd hd (by simp)⟩
  | cons d0 ds ih =>
    intro v s name v'' h hsv hD
    rw [goDeps] at h
    by_cases hmiss : (lookupA d0 g).isNone = true
    · rw [if_pos hmiss] at h
      cases h
    · rw [if_neg hmiss] at h
      have hd0 : d0 ∈ keysOf g := by
        cases hl : lookupA d0 g with
        | none => exact absurd (by rw [hl]; rfl) hmiss
        | some svc => exact lookup_some_mem_keys g d0 svc hl
      cases hvn : visitNode g fuel v s d0 with
      | error e =>
        rw [hvn] at h
        cases h
      | ok pr =>
        obtain ⟨flag, v₁⟩ := pr
        rw [hvn] at h
        cases flag
        · obtain ⟨hvv₁, hsv₁, hD₁, _⟩ := hvisit v s d0 false v₁ hvn hsv hD
          obtain ⟨hv₁v'', hsv'', hD'', hds⟩ := ih v₁ s name v'' h hsv₁ hD₁
          refine ⟨fun x hx => hv₁v'' (hvv₁ hx), hsv'', hD'', ?_⟩
          intro d hd
          rcases List.mem_cons.mp hd with rfl | hd'
          · exact hd0
          · exact hds d hd'
        · cases h

theorem visitNode_depsok (g : List (String × Service)) :
    ∀ (fuel : Nat) (v s : List String) (n : String) (flag : Bool)
      (v' : List String),
      visitNode g fuel v s n = .ok (flag, v') →
      s ⊆ v → DepsOk g v s →
      v ⊆ v' ∧ s ⊆ v' ∧ DepsOk g v' s ∧ n ∈ v' := by
  intro fuel
  induction fuel with
  | zero =>
    intro v s n flag v' h
    cases h
  | succ fuel ih =>
    intro v s n flag v' h hsv hD
    rw [visitNode] at h
    by_cases h1 : n ∈ s
    · rw [if_pos h1] at h
      cases h
      exact ⟨fun _ hx => hx, hsv, hD, hsv h1⟩
    · rw [if_neg h1] at h
      by_cases h2 : n ∈ v
      · rw [if_pos h2] at h
        cases h
        exact ⟨fun _ hx => hx, hsv, hD, h2⟩
      · rw [if_neg h2] at h
        cases hgo : goDeps (visitNode g fuel) g (n :: v) (n :: s) n
            (depsOf g n) with
        | error e =>
          rw [hgo] at h
          cases h
        | ok vg =>
          rw [hgo] at h
          cases h
          have hsv' : (n :: s) ⊆ (n :: v) := by
            intro x hx
            rcases List.mem_cons.mp hx with rfl | hx'
            · exact List.mem_cons_self _ _
            · exact List.mem_cons_of_mem _ (hsv hx')
          have hD' : DepsOk g (n :: v) (n :: s) := by
            intro x hxv hxs d hd
            have hxn : x ≠ n := fun hx =>
              hxs (hx ▸ List.mem_cons_self _ _)
            have hxv' : x ∈ v := by
              rcases List.mem_cons.mp hxv with h' | h'
              · exact absurd h' hxn
              · exact h'
            exact hD x hxv' (fun hx => hxs (List.mem_cons_of_mem _ hx)) d hd
          obtain ⟨hnv_keep, hns_keep, hDmid, hdeps⟩ :=
            goDeps_depsok g fuel
              (fun v0 s0 n0 flag0 v0' => ih v0 s0 n0 flag0 v0')
              (depsOf g n) (n :: v) (n :: s) n v' hgo hsv' hD'
          have hnv' : n ∈ v' := hnv_keep (List.mem_cons_self _ _)
          have hDfin : DepsOk g v' s := by
            intro x hxv hxs d hd
            by_cases hxn : x = n
            · subst hxn
              exact hdeps d hd
            · have hxs' : x ∉ n :: s := by
                intro hmem
                rcases List.mem_cons.mp hmem with h' | h'
                · exact hxn h'
                · exact hxs h'
              exact hDmid x hxv hxs' d hd
          exact ⟨fun x hx => hnv_keep (List.mem_cons_of_mem _ hx),
            fun x hx => hns_keep (List.mem_cons_of_mem _ hx), hDfin, hnv'⟩

theorem validateLoop_depsok (g : List (String × Service)) :
    ∀ (names visited : List String),
      DepsOk g visited [] →
      validateLoop g names visited = .ok () →
      ∀ n ∈ names, ∀ d ∈ depsOf g n, d ∈ keysOf g := by
  intro names
  induction names with
  | nil =>
    intro visited _ _ n hn
    cases hn
  | cons n0 rest ih =>
    intro visited hD h n hn
    rw [validateLoop] at h
    by_cases hv : n0 ∈ visited
    · rw [if_pos hv] at h
      rcases List.mem_cons.mp hn with rfl | hn'
      · exact hD n hv (by simp)
      · exact ih visited hD h n hn'
    · rw [if_neg hv] at h
      cases hvn : visitNode g (g.length + 1) visited [] n0 with
      | error e =>
        rw [hvn] at h
        cases h
      | ok pr =>
        obtain ⟨flag, v'⟩ := pr
        rw [hvn] at h
        obtain ⟨hvv', _, hD', hn0v'⟩ :=
          visitNode_depsok g (g.length + 1) visited [] n0 flag v' hvn
            (by intro x hx; cases hx) hD
        rcases List.mem_cons.mp hn with rfl | hn'
        · exact hD' n hn0v' (by simp)
        · exact ih v' hD' h n hn'

/-! ## Claim C4 -/

/-- Claim C4 (counterexample): a specification with both a two-cycle
(`a ↔ b`) and a dangling dependency (`a` also depends on the absent `z`,
listed first) fails with the dangling error, not with a circular error
naming a service on the cycle. -/
theorem c4_loader_validation_counterexample :
    validateDependencies
        { services := [("a", { image := "a", depends_on := some ["z", "b"] }),
                       ("b", { image := "b", depends_on := some ["a"] })] }
      = .error (.dangling "a" "z") ∧
    Edge [("a", { image := "a", depends_on := some ["z", "b"] }),
          ("b", { image := "b", depends_on := some ["a"] })] "a" "b" ∧
    Edge [("a", { image := "a", depends_on := some ["z", "b"] }),
          ("b", { image := "b", depends_on := some ["a"] })] "b" "a" ∧
    ("a" : String) ≠ "b" ∧
    validateDependencies
        { services := [("a", { image := "a", depends_on := some ["z", "b"] }),
                       ("b", { image := "b", depends_on := some ["a"] })] }
      ≠ .error (.circular "a") ∧
    validateDependencies
        { services := [("a", { image := "a", depends_on := some ["z", "b"] }),
                       ("b", { image := "b", depends_on := some ["a"] })] }
      ≠ .error (.circular "b") := by
  refine ⟨by decide, ?_, ?_, by decide, by decide, by decide⟩
  · show "b" ∈ depsOf _ "a"
    decide
  · show "a" ∈ depsOf _ "b"
    decide

/-- Claim C4 (amended): when every explicit dependency target exists, a
specification whose explicit `dependsOn` edges contain a cycle of length
≥ 2 fails validation with a circular-dependency error naming a service on
a cycle; when the explicit dependency graph is acyclic, a specification
with a dangling dependency fails with a dangling error naming a depending
service and its missing target.  Validation visits every service, so this
holds for cycles in disconnected components as well. -/
theorem c4_loader_validation (spec : Spec) :
    ((∀ x d, d ∈ depsOf spec.services x → d ∈ keysOf spec.services) →
      (∃ a b, a ≠ b ∧ Relation.TransGen (Edge spec.services) a b ∧
        Relation.TransGen (Edge spec.services) b a) →
      ∃ c, validateDependencies spec = .error (.circular c) ∧
        Relation.TransGen (Edge spec.services) c c) ∧
    ((∀ x, ¬ Relation.TransGen (Edge spec.services) x x) →
      (∃ x d, d ∈ depsOf spec.services x ∧ d ∉ keysOf spec.services) →
      ∃ x d, validateDependencies spec = .error (.dangling x d) ∧
        d ∈ depsOf spec.services x ∧ d ∉ keysOf spec.services) := by
  constructor
  · intro hdeps hcyc
    obtain ⟨a, b, hab, hab1, hab2⟩ := hcyc
    cases hres : validateDependencies spec with
    | ok u =>
      cases u
      have hacyc := validateLoop_acyc spec.services (keysOf spec.services) []
        (fun x hx => absurd hx (by simp))
        (fun x hx => absurd hx (by simp)) hres
      have haa : Relation.TransGen (Edge spec.services) a a := hab1.trans hab2
      obtain ⟨z, hz, _⟩ := Relation.TransGen.head'_iff.mp haa
      exact absurd haa (hacyc a (edge_source_mem_keys _ _ _ hz))
    | error e =>
      cases e with
      | dangling x d =>
        obtain ⟨hnone, hd⟩ :=
          validateLoop_dangling spec.services (keysOf spec.services) [] x d hres
        have : d ∈ keysOf spec.services := hdeps x d hd
        rw [keysOf] at this
        rw [lookupA_eq_none_iff] at hnone
        exact absurd this hnone
      | circular c =>
        exact ⟨c, rfl,
          validateLoop_circular spec.services (keysOf spec.services) [] c hres⟩
      | outOfFuel =>
        exact absurd hres
          (validateLoop_ne_outOfFuel spec.services (keysOf spec.services) [])
  · intro hacyc hdangle
    obtain ⟨x0, d0, hd0, hd0k⟩ := hdangle
    cases hres : validateDependencies spec with
    | ok u =>
      cases u
      have hall := validateLoop_depsok spec.services (keysOf spec.services) []
        (fun x hx => absurd hx (by simp)) hres
      have hx0 : x0 ∈ keysOf spec.services := by
        rw [depsOf] at hd0
        cases hl : lookupA x0 spec.services with
        | none =>
          rw [hl] at hd0
          cases hd0
        | some svc => exact lookup_some_mem_keys _ x0 svc hl
      exact absurd (hall x0 hx0 d0 hd0) hd0k
    | error e =>
      cases e with
      | dangling x d =>
        obtain ⟨hnone, hd⟩ :=
          validateLoop_dangling spec.services (keysOf spec.services) [] x d hres
        refine ⟨x, d, rfl, hd, ?_⟩
        rw [lookupA_eq_none_iff] at hnone
        rw [keysOf]
        exact hnone
      | circular c =>
        have := validateLoop_circular spec.services (keysOf spec.services) []
          c hres
        exact absurd this (hacyc c)
      | outOfFuel =>
        exact absurd hres
          (validateLoop_ne_outOfFuel spec.services (keysOf spec.services) [])

/-- Witness for `c4_loader_validation`: a pure two-cycle is reported as a
circular error naming a service on the cycle, and a pure dangling
reference as a dangling error naming source and target. -/
theorem c4_loader_validation_witness :
    (∃ c, validateDependencies
        { services := [("a", { image := "a", depends_on := some ["b"] }),
                       ("b", { image := "b", depends_on := some ["a"] })] }
      = .error (.circular c) ∧
      Relation.TransGen (Edge
        [("a", { image := "a", depends_on := some ["b"] }),
         ("b", { image := "b", depends_on := some ["a"] })]) c c) ∧
    (∃ x d, validateDependencies
        { services := [("a", { image := "a", depends_on := some ["zz"] })] }
      = .error (.dangling x d) ∧
      d ∈ depsOf [("a", { image := "a", depends_on := some ["zz"] })] x ∧
      d ∉ keysOf [("a", { image := "a", depends_on := some ["zz"] })]) := by
  constructor
  · have hdeps : ∀ x d, d ∈ depsOf
        [("a", { image := "a", depends_on := some ["b"] }),
         ("b", { image := "b", depends_on := some ["a"] })] x →
        d ∈ keysOf [("a", { image := "a", depends_on := some ["b"] }),
         ("b", { image := "b", depends_on := some ["a"] })] := by
      intro x d hd
      have hx := edge_source_mem_keys _ _ _ hd
      have hx2 : x = "a" ∨ x = "b" := by
        have hx3 : x ∈ ["a", "b"] := hx
        simpa using hx3
      rcases hx2 with rfl | rfl
      · have heq : depsOf
            [("a", { image := "a", depends_on := some ["b"] }),
             ("b", { image := "b", depends_on := some ["a"] })] "a"
            = ["b"] := by decide
        rw [heq] at hd
        rcases List.mem_singleton.mp hd with rfl
        decide
      · have heq : depsOf
            [("a", { image := "a", depends_on := some ["b"] }),
             ("b", { image := "b", depends_on := some ["a"] })] "b"
            = ["a"] := by decide
        rw [heq] at hd
        rcases List.mem_singleton.mp hd with rfl
        decide
    exact (c4_loader_validation
      { services := [("a", { image := "a", depends_on := some ["b"] }),
                     ("b", { image := "b", depends_on := some ["a"] })] }).1
      hdeps
      ⟨"a", "b", by decide,
        Relation.TransGen.single (show ("b" : String) ∈ depsOf
          [("a", { image := "a", depends_on := some ["b"] }),
           ("b", { image := "b", depends_on := some ["a"] })] "a" by decide),
        Relation.TransGen.single (show ("a" : String) ∈ depsOf
          [("a", { image := "a", depends_on := some ["b"] }),
           ("b", { image := "b", depends_on := some ["a"] })] "b" by decide)⟩
  · refine (c4_loader_validation
      { services :=
          [("a", { image := "a", depends_on := some ["zz"] })] }).2
      ?_ ⟨"a", "zz", by decide, by decide⟩
    intro x hcyc
    obtain ⟨z, hz, hrest⟩ := Relation.TransGen.head'_iff.mp hcyc
    have hx : x ∈ keysOf
        [("a", { image := "a", depends_on := some ["zz"] })] :=
      edge_source_mem_keys _ _ _ hz
    have hxa : x = "a" := List.mem_singleton.mp hx
    subst hxa
    have hzz : z = "zz" := by
      have hmem : z ∈ ["zz"] := hz
      exact List.mem_singleton.mp hmem
    subst hzz
    rcases Relation.ReflTransGen.cases_head hrest with heq | ⟨w, hw, _⟩
    · exact absurd heq (by decide)
    · have hmem : ("zz" : String) ∈ keysOf
          [("a", { image := "a", depends_on := some ["zz"] })] :=
        edge_source_mem_keys _ _ _ hw
      exact absurd (List.mem_singleton.mp hmem) (by decide)

/-! ## Claim C5 -/

/-- Claim C5 (counterexample): a specification whose only dependency is
contributed by a dependency group referencing the absent service
`missing` passes load-time validation, yet its group-expanded dependency
list names a service that does not exist — group-contributed names are
never validated. -/
theorem c5_group_expansion_counterexample :
    validateDependencies
        { services :=
            [("a", { image := "a", dependencyGroups := some ["database"] })],
          dependencies := some [("database", ["missing"])] }
      = .ok () ∧
    resolveDependencies { image := "a", dependencyGroups := some ["database"] }
        [("database", ["missing"])] = ["missing"] ∧
    ("missing" : String) ∉ keysOf
        [("a", { image := "a", dependencyGroups := some ["database"] })] ∧
    (convertServiceToCompose
        { image := "a", dependencyGroups := some ["database"] }
        [("database", ["missing"])] [] 3000).1.depends_on
      = some (.short ["missing"]) := by
  exact ⟨by decide, by decide, by decide, by decide⟩

/-- Claim C5 (amended): for every specification accepted by load-time
validation, every name in every service's EXPLICIT `dependsOn` names an
existing service and the explicit dependency relation is acyclic; the
names contributed by dependency-group expansion are not validated (see the
counterexample), so the invariant holds only before group expansion. -/
theorem c5_loaded_spec_invariant (spec : Spec)
    (h : validateDependencies spec = .ok ()) :
    (∀ x, ∀ d ∈ depsOf spec.services x, d ∈ keysOf spec.services) ∧
    (∀ x, ¬ Relation.TransGen (Edge spec.services) x x) := by
  constructor
  · intro x d hd
    have hx : x ∈ keysOf spec.services := by
      rw [depsOf] at hd
      cases hl : lookupA x spec.services with
      | none =>
        rw [hl] at hd
        cases hd
      | some svc => exact lookup_some_mem_keys _ x svc hl
    exact validateLoop_depsok spec.services (keysOf spec.services) []
      (fun y hy => absurd hy (by simp)) h x hx d hd
  · intro x hcyc
    obtain ⟨z, hz, _⟩ := Relation.TransGen.head'_iff.mp hcyc
    exact validateLoop_acyc spec.services (keysOf spec.services) []
      (fun y hy => absurd hy (by simp))
      (fun y hy => absurd hy (by simp)) h
      x (edge_source_mem_keys _ _ _ hz) hcyc

/-- Witness for `c5_loaded_spec_invariant` at a valid two-service
specification with an explicit dependency. -/
theorem c5_loaded_spec_invariant_witness :
    validateDependencies
        { services :=
            [("api", { image := "x", depends_on := some ["postgres"] }),
             ("postgres", { image := "postgres" })] } = .ok () ∧
    ((∀ x, ∀ d ∈ depsOf
        [("api", { image := "x", depends_on := some ["postgres"] }),
         ("postgres", { image := "postgres" })] x,
        d ∈ keysOf
          [("api", { image := "x", depends_on := some ["postgres"] }),
           ("postgres", { image := "postgres" })]) ∧
      (∀ x, ¬ Relation.TransGen (Edge
        [("api", { image := "x", depends_on := some ["postgres"] }),
         ("postgres", { image := "postgres" })]) x x)) :=
  ⟨by decide,
   c5_loaded_spec_invariant
     { services :=
         [("api", { image := "x", depends_on := some ["postgres"] }),
          ("postgres", { image := "postgres" })] } (by decide)⟩

end XQ
